import Mathlib

set_option maxRecDepth 20000

/-!
Shallow embedding of the runic markup lexer (src/lex.go) and recursive-descent
parser (the unnamed parser source file) of the adambarjo/runic repository.

Modelling conventions, applied uniformly:
* The input buffer is a `List Char`; positions count characters.  The Go code
  works on UTF-8 bytes, but every structurally significant character of the
  grammar is a one-byte ASCII character, so character positions coincide with
  byte positions on the inputs the grammar distinguishes.
* Go runes are modelled by `RuneV`: an actual character, or the sentinel
  values eof (-1) and void (-2) used by the lexer.
* unicode.IsSpace is modelled by `goIsSpace` (the exact White_Space table Go
  uses); unicode.IsLetter is modelled by its ASCII restriction `goIsLetter`
  (tag names in the grammar are ASCII words).
* Loops and the mutually recursive descent are driven by explicit fuel.
  Running out of fuel freezes the state with status `Status.fuelOut`.
  A Go runtime panic (out-of-range string slicing, nil dereference) freezes
  the state with status `Status.panicked`.  Both statuses are absorbing:
  every state transformer returns a frozen state unchanged, so a run that
  panics keeps the state at the panic point, like a propagating Go panic.
-/

/-- Token kinds of the lexer, one constructor per Go tokenType constant. -/
inductive TokenType where
  | typeNone
  | typeEOF
  | typeText
  | typeTerminator
  | typeHeading
  | typeTag
  | typeOpeningSquare
  | typeClosingSquare
  | typeBulletpoint
  deriving DecidableEq, Repr

/-- A lexer token: kind, value, 1-based line, character position in the
canonicalized buffer, and the indent recorded for bulletpoints. -/
structure Token where
  typ : TokenType
  val : List Char
  line : Int
  pos : Nat
  indent : Nat
  deriving DecidableEq, Repr

/-- A Go rune as the lexer uses it: a character, or the sentinels eof (-1)
and void (-2). -/
inductive RuneV where
  | chr (c : Char)
  | eofR
  | voidR
  deriving DecidableEq, Repr

/-- Run status of the model: running normally, stopped by a Go runtime panic,
or stopped because the driving fuel ran out. -/
inductive Status where
  | ok
  | panicked
  | fuelOut
  deriving DecidableEq, Repr

/-- The lex functions a lexer state can dispatch to next (the Go code stores
a function value in the lexNext field). -/
inductive LexFn where
  | fnGlobal
  | fnText
  | fnHeading
  | fnTerminator
  | fnTag
  | fnOpeningSquare
  | fnClosingSquare
  | fnHypen
  deriving DecidableEq, Repr

/-- The lexer state, one field per field of the Go lexer struct, plus the
model status. -/
structure LState where
  input : List Char
  line : Int
  pos : Nat
  tok : Token
  char : RuneV
  lexNext : Option LexFn
  skippedNewlines : Nat
  skippedSpace : Nat
  tag : List Char
  continuousNewline : Bool
  ctx : Nat
  status : Status
  deriving DecidableEq, Repr

/-- Go's unicode.IsSpace on a character (the Unicode White_Space table). -/
def goIsSpace (c : Char) : Bool :=
  decide ((9 ≤ c.toNat ∧ c.toNat ≤ 13) ∨ c.toNat = 32 ∨ c.toNat = 0x85 ∨
    c.toNat = 0xA0 ∨ c.toNat = 0x1680 ∨ (0x2000 ≤ c.toNat ∧ c.toNat ≤ 0x200A) ∨
    c.toNat = 0x2028 ∨ c.toNat = 0x2029 ∨ c.toNat = 0x202F ∨
    c.toNat = 0x205F ∨ c.toNat = 0x3000)

/-- Go's unicode.IsLetter restricted to ASCII letters (tag names in the
grammar are ASCII words such as bold and italic). -/
def goIsLetter (c : Char) : Bool :=
  decide (('a' ≤ c ∧ c ≤ 'z') ∨ ('A' ≤ c ∧ c ≤ 'Z'))

/-- unicode.IsSpace lifted to runes; it is false on the eof and void
sentinels, as in Go (negative runes are in no Unicode table). -/
def runeIsSpace : RuneV → Bool
  | .chr c => goIsSpace c
  | _ => false

/-- The Unicode replacement character, which Go's DecodeRuneInString and
DecodeLastRuneInString return on an empty string. -/
def runeError : Char := Char.ofNat 0xFFFD

/-- The zero-valued token Go starts with and resets to. -/
def emptyToken : Token := ⟨.typeNone, [], 0, 0, 0⟩

/-- lex: the initial lexer state for the given input, as built by the Go
constructor (line 1, lexNext = lexGlobal, everything else zero-valued). -/
def lexInit (s : List Char) : LState :=
  ⟨s, 1, 0, emptyToken, .chr (Char.ofNat 0), some .fnGlobal, 0, 0, [], false, 0, .ok⟩

/-- Freeze a state because the driving fuel ran out (model device). -/
def freezeL (l : LState) : LState :=
  if l.status = .ok then { l with status := .fuelOut } else l

/-- Freeze a state because the Go code would panic here. -/
def panicL (l : LState) : LState :=
  if l.status = .ok then { l with status := .panicked } else l

/-- mkToken: a token of the given type and value stamped with the current
line and position. -/
def mkToken (l : LState) (typ : TokenType) (val : List Char) : Token :=
  ⟨typ, val, l.line, l.pos, 0⟩

/-- resetToken: clear the current token, the continuousNewline flag and the
context. -/
def resetToken (l : LState) : LState :=
  if l.status = .ok then
    { l with tok := emptyToken, continuousNewline := false, ctx := 0 }
  else l

/-- peek: the next rune in the input, eof at the end of the buffer. -/
def peek (l : LState) : RuneV :=
  if l.pos ≥ l.input.length then .eofR
  else .chr (l.input.getD l.pos (Char.ofNat 0))

/-- peekBehind: the rune before the current one: void at position 0, the last
rune of the buffer when the position is at the end, otherwise the last rune
before position pos-1 (the replacement rune when that slice is empty, as
DecodeLastRuneInString returns on an empty string). -/
def peekBehind (l : LState) : RuneV :=
  if l.pos = 0 then .voidR
  else if l.pos = l.input.length then .chr (l.input.getLast?.getD runeError)
  else .chr ((l.input.take (l.pos - 1)).getLast?.getD runeError)

/-- peekNextNonSpace: the first rune of the remaining input with surrounding
whitespace trimmed; eof at the end, the replacement rune when the rest is all
whitespace (TrimSpace yields the empty string there). -/
def peekNextNonSpace (l : LState) : RuneV :=
  if l.pos = l.input.length then .eofR
  else
    match (l.input.drop l.pos).dropWhile goIsSpace with
    | [] => .chr runeError
    | c :: _ => .chr c

/-- addToTag: accumulate letters of a candidate tag name while lexing text;
whitespace clears the accumulator. -/
def addToTag (l : LState) : LState :=
  if l.status = .ok then
    if l.tok.typ = .typeText then
      match l.char with
      | .chr c =>
        if goIsLetter c then { l with tag := l.tag ++ [c] }
        else if goIsSpace c then { l with tag := [] }
        else l
      | _ => l
    else l
  else l

/-- The in-bounds part of next: read the character at the current position,
advance, and reset the line and skippedSpace bookkeeping on a newline. -/
def readChar (l : LState) : LState :=
  if l.input.getD l.pos (Char.ofNat 0) = '\n' then
    { l with pos := l.pos + 1, char := .chr (l.input.getD l.pos (Char.ofNat 0)),
             line := l.line + 1, skippedSpace := 0 }
  else { l with pos := l.pos + 1, char := .chr (l.input.getD l.pos (Char.ofNat 0)) }

/-- The silent-consumption bookkeeping of skipSpace: one more whitespace
character skipped, one more newline when the current character is one. -/
def bumpSkips (l : LState) : LState :=
  { l with
    skippedSpace := l.skippedSpace + 1,
    skippedNewlines :=
      if l.char = .chr '\n' then l.skippedNewlines + 1 else l.skippedNewlines }

mutual

/-- next: progress the lexer by a single character (eof past the end), then
run addToTag and skipSpace, exactly as the Go next does.  Fuel drives the
mutual recursion with skipSpace. -/
def nextF : Nat → LState → LState
  | 0, l => freezeL l
  | f + 1, l =>
    if l.status = .ok then
      if l.pos ≥ l.input.length then { l with char := .eofR }
      else skipSpaceF f (addToTag (readChar l))
    else l

/-- skipSpace: while the current and next characters are both whitespace,
consume silently, counting skipped spaces and newlines; when the run ends and
a newline was skipped, rewrite the final whitespace character of the run in
the buffer to a newline and make it the current character; otherwise reset
the skipped-newline counter. -/
def skipSpaceF : Nat → LState → LState
  | 0, l => freezeL l
  | f + 1, l =>
    if l.status = .ok then
      if runeIsSpace l.char && runeIsSpace (peek l) then
        nextF f (bumpSkips l)
      else if l.skippedNewlines > 0 && runeIsSpace l.char then
        if l.pos = 0 then panicL l
        else
          { l with
            skippedNewlines :=
              if l.char = .chr '\n' then l.skippedNewlines + 1 else l.skippedNewlines,
            input := l.input.set (l.pos - 1) '\n',
            char := .chr '\n' }
      else { l with skippedNewlines := 0 }
    else l

end

/-- next with its fuel fixed to a bound sufficient for the whole buffer (the
next/skipSpace recursion advances by one character per two fuel units). -/
def lnext (l : LState) : LState := nextF (2 * l.input.length + 4) l

/-- backup: reverse the action of next; at position 0 the current rune
becomes void, otherwise step back one character (decrementing the line count
when the current character is a newline) and re-read it from the buffer. -/
def backup (l : LState) : LState :=
  if l.status = .ok then
    if l.pos = 0 then { l with char := .voidR }
    else
      let l1 := if l.char = .chr '\n' then { l with line := l.line - 1 } else l
      { l1 with pos := l1.pos - 1,
                char := .chr ((l1.input.take l1.pos).getLast?.getD runeError) }
  else l

/-- nextN: n repetitions of next. -/
def nextN : Nat → LState → LState
  | 0, l => l
  | n + 1, l => nextN n (lnext l)

/-- backupN: n repetitions of backup. -/
def backupN : Nat → LState → LState
  | 0, l => l
  | n + 1, l => backupN n (backup l)

/-- addToToken: append a character to the current token value. -/
def addToToken (c : Char) (l : LState) : LState :=
  if l.status = .ok then { l with tok := { l.tok with val := l.tok.val ++ [c] } } else l

/-- addToToken applied to the current rune; the Go code converts the rune to
a string, which yields the replacement character on the sentinels (they are
never reached on this call path). -/
def addToTokenR (l : LState) : LState :=
  match l.char with
  | .chr c => addToToken c l
  | _ => addToToken runeError l

/-- truncateToken: drop the last n characters of the token value.  The Go
code slices Val[:len(Val)-n], which panics when n exceeds the value's
length. -/
def truncateToken (n : Nat) (l : LState) : LState :=
  if l.status = .ok then
    if n ≤ l.tok.val.length then
      { l with tok := { l.tok with val := l.tok.val.take (l.tok.val.length - n) } }
    else panicL l
  else l

/-- trimTrailingSpace: drop the final character of a nonempty token value
when the rune behind the cursor is whitespace. -/
def trimTrailingSpace (l : LState) : LState :=
  if l.status = .ok then
    if l.tok.val = [] then l
    else if runeIsSpace (peekBehind l) then
      { l with tok := { l.tok with val := l.tok.val.dropLast } }
    else l
  else l

/-- isHeadingChar: the current rune is a dot or a colon. -/
def isHeadingChar (l : LState) : Bool :=
  l.char = .chr '.' || l.char = .chr ':'

/-- Set lexNext, respecting frozen states (model guard). -/
def setLexNext (fn : Option LexFn) (l : LState) : LState :=
  if l.status = .ok then { l with lexNext := fn } else l

/-- The fall-through of lexGlobal for an ordinary text character: mark the
start of a continuous text run (guarded for frozen states). -/
def setContinuousText (l : LState) : LState :=
  if l.status = .ok then { l with continuousNewline := true, lexNext := some .fnText } else l

/-- The classification part of lexGlobal, applied to the state reached after
resetToken and next. -/
def lexGlobalBody (l : LState) : LState :=
  if l.status = .ok then
    if l.char = .eofR then { l with tok := mkToken l .typeEOF [], lexNext := none }
    else if runeIsSpace l.char then { l with lexNext := some .fnGlobal }
    else if l.char = .chr '\\' then setLexNext (some .fnText) (backup l)
    else if isHeadingChar l then setLexNext (some .fnHeading) (backup l)
    else if l.char = .chr '-' then setLexNext (some .fnHypen) (backup l)
    else setContinuousText (backup l)
  else l

/-- lexGlobal: the starting state of the lexer; reset the token, advance one
character, and classify it. -/
def lexGlobal (l0 : LState) : LState :=
  if l0.status = .ok then lexGlobalBody (lnext (resetToken l0)) else l0

/-- The body of the lexText loop with the loop reentry abstracted; each
branch mirrors one if of the Go loop, in order. -/
def lexTextBodyF (loop : LState → LState) (l : LState) : LState :=
  if l.status = .ok then
    if l.char = .eofR then setLexNext (some .fnGlobal) (trimTrailingSpace l)
    else if l.char = .chr '\\' ∧ peek l ≠ .chr '\\' then
      loop { l with tag := [] }
    else if peekBehind l = .chr '\\' then loop (addToTokenR l)
    else if l.char = .chr '\n' ∧ l.ctx = 1 then
      if peekNextNonSpace l = .chr '-' then setLexNext (some .fnHypen) l
      else setLexNext (some .fnTerminator) l
    else if l.char = .chr '\n' ∧ (l.continuousNewline = false ∨ 2 ≤ l.skippedNewlines) then
      setLexNext (some .fnTerminator) l
    else if l.char = .chr '\n' ∧ l.continuousNewline = true then
      loop (addToToken ' ' l)
    else if l.char = .chr '[' then
      if l.tag.length = 0 then
        setLexNext (some .fnOpeningSquare) (backup (trimTrailingSpace l))
      else
        setLexNext (some .fnTag)
          (backup (trimTrailingSpace (truncateToken l.tag.length (backupN l.tag.length l))))
    else if l.char = .chr ']' ∧ peekBehind l ≠ .chr '\\' then
      setLexNext (some .fnClosingSquare) (backup (trimTrailingSpace l))
    else if l.tok.val = [] ∧ runeIsSpace l.char then
      loop { l with tok := mkToken l .typeText [] }
    else loop (addToTokenR l)
  else l

/-- The loop of lexText, driven by fuel; each iteration advances one
character and runs the branch body. -/
def lexTextLoop : Nat → LState → LState
  | 0, l0 => freezeL l0
  | f + 1, l0 => if l0.status = .ok then lexTextBodyF (lexTextLoop f) (lnext l0) else l0

/-- The body of the lexText loop reentering the fuelled loop, applied to the
state after next. -/
def lexTextBody (f : Nat) (l : LState) : LState := lexTextBodyF (lexTextLoop f) l

/-- The deferred check at the end of lexText: an empty text value demotes the
token to typeNone. -/
def fixEmptyText (l : LState) : LState :=
  if l.status = .ok then
    if l.tok.val = [] then { l with tok := { l.tok with typ := .typeNone } } else l
  else l

/-- lexText: lex standard text (opens a typeText token, runs the loop, and
applies the deferred empty-value check). -/
def lexText (f : Nat) (l : LState) : LState :=
  if l.status = .ok then
    fixEmptyText (lexTextLoop f { l with tok := mkToken l .typeText [] })
  else l

/-- The body of the lexHeading loop with the loop reentry abstracted. -/
def lexHeadingBodyF (loop : LState → LState) (l : LState) : LState :=
  if l.status = .ok then
    if l.char = .eofR then setLexNext (some .fnGlobal) l
    else if ¬ (isHeadingChar l = true) ∨ l.tok.val.length = 3 then
      setLexNext (some .fnText) (backup l)
    else
      match l.char with
      | .chr c => loop { l with tok := { l.tok with val := l.tok.val ++ [c] } }
      | _ => l
  else l

/-- The loop of lexHeading: accumulate heading punctuation up to three
characters, then back up and hand over to lexText. -/
def lexHeadingLoop : Nat → LState → LState
  | 0, l0 => freezeL l0
  | f + 1, l0 => if l0.status = .ok then lexHeadingBodyF (lexHeadingLoop f) (lnext l0) else l0

/-- The body of the lexHeading loop reentering the fuelled loop, applied to
the state after next. -/
def lexHeadingBody (f : Nat) (l : LState) : LState := lexHeadingBodyF (lexHeadingLoop f) l

/-- lexHeading: lex the heading punctuation run. -/
def lexHeading (f : Nat) (l : LState) : LState :=
  if l.status = .ok then
    lexHeadingLoop f { l with tok := mkToken l .typeHeading [] }
  else l

/-- After backing up onto the newline, stamp the terminator token (guarded
for frozen states). -/
def setTerminatorTok (l1 : LState) : LState :=
  if l1.status = .ok then { l1 with tok := mkToken l1 .typeTerminator ['\n'] } else l1

/-- lexTerminator: back up onto the newline, emit a terminator token, step
past it, and return to lexGlobal. -/
def lexTerminator (l0 : LState) : LState :=
  if l0.status = .ok then
    setLexNext (some .fnGlobal) (lnext (setTerminatorTok (backup l0)))
  else l0

/-- Clear the tag accumulator (guarded for frozen states). -/
def clearTag (l : LState) : LState :=
  if l.status = .ok then { l with tag := [] } else l

/-- lexTag: emit the accumulated tag name as a typeTag token, skip back over
its characters, clear the accumulator, and continue with the opening
bracket. -/
def lexTag (l0 : LState) : LState :=
  if l0.status = .ok then
    setLexNext (some .fnOpeningSquare)
      (clearTag (nextN l0.tag.length { l0 with tok := mkToken l0 .typeTag l0.tag }))
  else l0

/-- lexOpeningSquare: emit the opening bracket token. -/
def lexOpeningSquare (l0 : LState) : LState :=
  if l0.status = .ok then
    setLexNext (some .fnText) (lnext { l0 with tok := mkToken l0 .typeOpeningSquare ['['] })
  else l0

/-- lexClosingSquare: emit the closing bracket token. -/
def lexClosingSquare (l0 : LState) : LState :=
  if l0.status = .ok then
    setLexNext (some .fnText) (lnext { l0 with tok := mkToken l0 .typeClosingSquare [']'] })
  else l0

/-- The optional consumption of one separator space after the hyphen. -/
def skipHyphenSpace (l2 : LState) : LState :=
  if runeIsSpace l2.char then lnext l2 else l2

/-- Enter the list context (guarded for frozen states). -/
def setListCtx (l3 : LState) : LState :=
  if l3.status = .ok then { l3 with ctx := 1 } else l3

/-- lexHypen: emit a bulletpoint token carrying the skipped-space count as
its indent, consume the hyphen (and one following space when present), enter
the list context, and continue with text. -/
def lexHypen (l0 : LState) : LState :=
  if l0.status = .ok then
    setLexNext (some .fnText)
      (setListCtx (skipHyphenSpace (lnext
        { l0 with tok := { mkToken l0 .typeBulletpoint ['-'] with indent := l0.skippedSpace } })))
  else l0

/-- Dispatch on the stored lex function, as calling the Go lexNext function
value does. -/
def runLexFn (f : Nat) (fn : LexFn) (l : LState) : LState :=
  match fn with
  | .fnGlobal => lexGlobal l
  | .fnText => lexText f l
  | .fnHeading => lexHeading f l
  | .fnTerminator => lexTerminator l
  | .fnTag => lexTag l
  | .fnOpeningSquare => lexOpeningSquare l
  | .fnClosingSquare => lexClosingSquare l
  | .fnHypen => lexHypen l

/-- The tail of nextToken after running the current lex function, with the
reentry into nextToken abstracted: recurse on a typeNone token, report the
produced token otherwise. -/
def nextTokenGoF (next : LState → LState × Bool) (l1 : LState) : LState × Bool :=
  if l1.status = .ok then
    if l1.tok.typ = .typeNone then next l1 else (l1, true)
  else (l1, false)

/-- nextToken: progress the lexer by a single token, skipping typeNone
results; returns true while the lexer is running (lexNext set), false once
lexNext is nil.  The nil check comes before any work, as in Go, so it also
precedes the fuel check of the model. -/
def nextTokenB (f : Nat) (l : LState) : LState × Bool :=
  if l.status = .ok then
    match l.lexNext with
    | none => (l, false)
    | some fn =>
      match f with
      | 0 => (freezeL l, false)
      | f' + 1 => nextTokenGoF (nextTokenB f') (runLexFn f' fn l)
  else (l, false)

/-- The tail of nextToken reentering the fuelled nextToken. -/
def nextTokenGo (f : Nat) (l1 : LState) : LState × Bool := nextTokenGoF (nextTokenB f) l1

/-- The fuel handed to one nextToken call: enough for the whole remaining
buffer. -/
def lexerFuel (l : LState) : Nat := 2 * l.input.length + 8

/-- One self-fuelled nextToken call, with the running flag. -/
def advanceB (l : LState) : LState × Bool := nextTokenB (lexerFuel l) l

/-- One self-fuelled nextToken call (the parser ignores the flag and reads
the token field, which stays at typeEOF once the lexer stops). -/
def advance (l : LState) : LState := (advanceB l).1

/-- Iterated advance from the initial state: the lexer state after n
nextToken calls on the given input. -/
def lexIter (s : List Char) : Nat → LState
  | 0 => lexInit s
  | n + 1 => advance (lexIter s n)

/-- The loop of collectTokens, appending each token while the lexer runs. -/
def collectLoop : Nat → LState → List Token → List Token × LState
  | 0, l, acc => (acc, freezeL l)
  | f + 1, l, acc =>
    if (advanceB l).2 then collectLoop f (advanceB l).1 (acc ++ [(advanceB l).1.tok])
    else (acc, (advanceB l).1)

/-- collectTokens: run the lexer to the end and accumulate the lexed
tokens. -/
def collectTokens (s : List Char) : List Token :=
  (collectLoop (s.length + 8) (lexInit s) []).1

/-- The canonicalized buffer: the lexer's input buffer after lexing the whole
input. -/
def canonBuffer (s : List Char) : List Char :=
  (collectLoop (s.length + 8) (lexInit s) []).2.input

/-- A node of the document tree: kind, diagnostic value, and owned
children. -/
inductive Node where
  | mk (typ : String) (val : List Char) (children : List Node)

/-- The kind of a node. -/
def Node.typ : Node → String
  | .mk t _ _ => t

/-- The diagnostic value of a node. -/
def Node.val : Node → List Char
  | .mk _ v _ => v

/-- The children of a node. -/
def Node.children : Node → List Node
  | .mk _ _ cs => cs

def INDENT_WIDTH : Nat := 2

def nodeRoot : String := "Root"
def nodeError : String := "ERROR"
def nodeHeadingOne : String := "HeadingOne"
def nodeHeadingTwo : String := "HeadingTwo"
def nodeHeadingThree : String := "HeadingThree"
def nodeHeadingFour : String := "HeadingFour"
def nodeHeadingFive : String := "HeadingFive"
def nodeHeadingSix : String := "HeadingSix"
def nodeParagraph : String := "Paragraph"
def nodeText : String := "Text"
def nodeBoldTag : String := "BoldTag"
def nodeItalicTag : String := "ItalicTag"
def nodeList : String := "List"
def nodeListItem : String := "ListItem"

def nodeHeadingOneValue : List Char := ['.']
def nodeHeadingTwoValue : List Char := [':']
def nodeHeadingThreeValue : List Char := [':', '.']
def nodeHeadingFourValue : List Char := [':', ':']
def nodeHeadingFiveValue : List Char := [':', ':', '.']
def nodeHeadingSixValue : List Char := [':', ':', ':']

def errInvalidTag : String := "Invalid tag name"
def errInvalidHeading : String := "Invalid heading value"

/-- fmt.Sprintf of an error constant and the offending literal. -/
def mkErrMsg (e : String) (v : List Char) : List Char :=
  e.toList ++ ':' :: ' ' :: v

/-- getListItemDepth: a bulletpoint's list depth is its indent divided by the
indentation unit (integer division, so rounding down). -/
def getListItemDepth (listItem : Token) : Nat :=
  listItem.indent / INDENT_WIDTH

/-- One stack frame of the tree builder: the data of an ancestor node and the
children it holds to the left of the hole the current node will fill.  The Go
code uses a transient parent pointer instead; this zipper is its functional
reading. -/
structure NodeCtx where
  typ : String
  val : List Char
  left : List Node

/-- The parser state: the lexer it drives, the zipper for the tree under
construction (currentNode plus the ancestor stack), the inline-tag nesting
depth, and the collected token log. -/
structure PState where
  lx : LState
  ctxs : List NodeCtx
  cur : Node
  tagDepth : Nat
  collectedTokens : List Token

/-- Freeze a parser state on fuel exhaustion (model device). -/
def freezeP (p : PState) : PState :=
  { p with lx := freezeL p.lx }

/-- addNewNode: append a fresh node of the given type and value to the
current node's children and descend into it. -/
def addNewNode (typ : String) (val : List Char) (p : PState) : PState :=
  if p.lx.status = .ok then
    { p with ctxs := ⟨p.cur.typ, p.cur.val, p.cur.children⟩ :: p.ctxs,
             cur := Node.mk typ val [] }
  else p

/-- previousSibling: the last child of the current node, or a zero-valued
node when there are no children. -/
def previousSibling (p : PState) : Node :=
  p.cur.children.getLast?.getD (Node.mk "" [] [])

/-- returnNode: ascend to the parent, plugging the finished current node in
as its last child.  At the root the Go code would set currentNode to nil and
crash on its next use; the model flags the panic here (the situation is not
reachable from Parse). -/
def returnNode (p : PState) : PState :=
  if p.lx.status = .ok then
    match p.ctxs with
    | [] => { p with lx := panicL p.lx }
    | c :: rest => { p with ctxs := rest, cur := Node.mk c.typ c.val (c.left ++ [p.cur]) }
  else p

/-- The parser's nextToken: advance the lexer one token and log it. -/
def pNextToken (p : PState) : PState :=
  if p.lx.status = .ok then
    { p with lx := advance p.lx,
             collectedTokens := p.collectedTokens ++ [(advance p.lx).tok] }
  else p

/-- parseText: merge a text token into a previous Text sibling with a single
joining space, or append a fresh Text node. -/
def parseText (p : PState) : PState :=
  if p.lx.status = .ok then
    if (previousSibling p).typ = nodeText then
      { p with cur := Node.mk p.cur.typ p.cur.val (p.cur.children.dropLast ++
          [Node.mk (previousSibling p).typ
            ((previousSibling p).val ++ ' ' :: p.lx.tok.val)
            (previousSibling p).children]) }
    else returnNode (addNewNode nodeText p.lx.tok.val p)
  else p

/-- Increment the inline-tag nesting depth (guarded for frozen states). -/
def incTagDepth (p : PState) : PState :=
  if p.lx.status = .ok then { p with tagDepth := p.tagDepth + 1 } else p

/-- Reset the inline-tag nesting depth to zero (guarded for frozen
states). -/
def setTagDepth0 (p : PState) : PState :=
  if p.lx.status = .ok then { p with tagDepth := 0 } else p

/-- The continuation of the typeTag case of parseRichText, with the reentry
into parseRichText abstracted: stop at once when the tag's content was cut
short by a bulletpoint or terminator at positive nesting depth, otherwise
pull the next token and keep consuming. -/
def parseRichTextAfterTagF (richText : PState → PState) (p1 : PState) : PState :=
  if 0 < p1.tagDepth ∧ (p1.lx.tok.typ = .typeBulletpoint ∨ p1.lx.tok.typ = .typeTerminator) then p1
  else richText (pNextToken p1)

/-- The continuation run after a possible nested list, with the reentry into
the item loop abstracted: close this list when the next bulletpoint is
strictly shallower than the item just parsed, otherwise continue the item
loop. -/
def parseListAfterNestedF (loop : PState → PState) (d1 : Nat) (p2 : PState) : PState :=
  if p2.lx.tok.typ = .typeBulletpoint ∧ getListItemDepth p2.lx.tok < d1 then returnNode p2
  else loop p2

/-- The continuation run after one list item at depth d1, with the reentries
into parseList and the after-nested continuation abstracted: recurse into a
nested list when the next bulletpoint is strictly deeper, then run the
after-nested continuation. -/
def parseListAfterItemF (list : Nat → PState → PState)
    (afterNested : Nat → PState → PState) (d1 : Nat) (p1 : PState) : PState :=
  afterNested d1
    (if p1.lx.tok.typ = .typeBulletpoint ∧ d1 < getListItemDepth p1.lx.tok then
      list (getListItemDepth p1.lx.tok) p1
    else p1)

mutual

/-- parseRichText: consume tokens until a bulletpoint, terminator or eof;
text tokens go through parseText, tag tokens open an inline node, a closing
bracket at positive depth closes it, everything else is skipped. -/
def parseRichText (f : Nat) (p : PState) : PState :=
  match f with
  | 0 => freezeP p
  | f' + 1 =>
    if p.lx.status = .ok then
      if p.lx.tok.typ = .typeBulletpoint ∨ p.lx.tok.typ = .typeTerminator ∨
          p.lx.tok.typ = .typeEOF then p
      else if p.lx.tok.typ = .typeText then parseRichText f' (pNextToken (parseText p))
      else if p.lx.tok.typ = .typeTag then parseRichTextAfterTagF (parseRichText f') (parseTag f' p)
      else if p.lx.tok.typ = .typeClosingSquare then
        if 0 < p.tagDepth then { p with tagDepth := p.tagDepth - 1 }
        else parseRichText f' (pNextToken p)
      else parseRichText f' (pNextToken p)
    else p

/-- parseTag: open a BoldTag or ItalicTag node for a whitelisted name (an
ERROR node otherwise), skip the opening bracket, bump the nesting depth,
parse the tag's rich-text content, and close the node. -/
def parseTag (f : Nat) (p : PState) : PState :=
  match f with
  | 0 => freezeP p
  | f' + 1 =>
    if p.lx.status = .ok then
      returnNode (parseRichText f' (incTagDepth (pNextToken
        (if p.lx.tok.val = "bold".toList then addNewNode nodeBoldTag [] p
         else if p.lx.tok.val = "italic".toList then addNewNode nodeItalicTag [] p
         else addNewNode nodeError (mkErrMsg errInvalidTag p.lx.tok.val) p))))
    else p

/-- parseHeading: map the heading literal to one of the six heading node
kinds (an ERROR node for an unrecognized literal), then parse the rich text
that follows as its content. -/
def parseHeading (f : Nat) (p : PState) : PState :=
  match f with
  | 0 => freezeP p
  | f' + 1 =>
    if p.lx.status = .ok then
      returnNode (parseRichText f' (pNextToken
        (if p.lx.tok.val = nodeHeadingOneValue then addNewNode nodeHeadingOne nodeHeadingOneValue p
         else if p.lx.tok.val = nodeHeadingTwoValue then addNewNode nodeHeadingTwo nodeHeadingTwoValue p
         else if p.lx.tok.val = nodeHeadingThreeValue then addNewNode nodeHeadingThree nodeHeadingThreeValue p
         else if p.lx.tok.val = nodeHeadingFourValue then addNewNode nodeHeadingFour nodeHeadingFourValue p
         else if p.lx.tok.val = nodeHeadingFiveValue then addNewNode nodeHeadingFive nodeHeadingFiveValue p
         else if p.lx.tok.val = nodeHeadingSixValue then addNewNode nodeHeadingSix nodeHeadingSixValue p
         else addNewNode nodeError (mkErrMsg errInvalidHeading p.lx.tok.val) p)))
    else p

/-- parseList: unless the bulletpoint already sits at a shallower depth than
the current list (in which case ascend and return), open a List node and run
the item loop. -/
def parseList (f : Nat) (d : Nat) (p : PState) : PState :=
  match f with
  | 0 => freezeP p
  | f' + 1 =>
    if p.lx.status = .ok then
      if p.lx.tok.typ = .typeBulletpoint ∧ getListItemDepth p.lx.tok < d then returnNode p
      else parseListLoop f' d (addNewNode nodeList [] p)
    else p

/-- The item loop of parseList: while the token is a bulletpoint, take its
depth as the current depth, parse one item, reset the tag depth, and hand
over to the after-item continuation. -/
def parseListLoop (f : Nat) (_d : Nat) (p : PState) : PState :=
  match f with
  | 0 => freezeP p
  | f' + 1 =>
    if p.lx.status = .ok then
      if p.lx.tok.typ = .typeBulletpoint then
        parseListAfterItemF (parseList f')
          (fun d1 => parseListAfterNestedF (parseListLoop f' d1) d1)
          (getListItemDepth p.lx.tok)
          (setTagDepth0 (parseListItem f' (pNextToken p)))
      else returnNode p
    else p

/-- parseListItem: a ListItem node wrapping one rich-text run. -/
def parseListItem (f : Nat) (p : PState) : PState :=
  match f with
  | 0 => freezeP p
  | f' + 1 =>
    if p.lx.status = .ok then returnNode (parseRichText f' (addNewNode nodeListItem [] p))
    else p

/-- parseParagraph: a Paragraph node wrapping one rich-text run. -/
def parseParagraph (f : Nat) (p : PState) : PState :=
  match f with
  | 0 => freezeP p
  | f' + 1 =>
    if p.lx.status = .ok then returnNode (parseRichText f' (addNewNode nodeParagraph [] p))
    else p

/-- The top-level loop of parseGlobal: classify each token (heading, list at
depth 0, otherwise paragraph) until eof. -/
def parseGlobalLoop (f : Nat) (p : PState) : PState :=
  match f with
  | 0 => freezeP p
  | f' + 1 =>
    if p.lx.status = .ok then
      if p.lx.tok.typ = .typeEOF then p
      else
        parseGlobalLoop f' (pNextToken
          (if p.lx.tok.typ = .typeHeading then parseHeading f' p
           else if p.lx.tok.typ = .typeBulletpoint then parseList f' 0 p
           else parseParagraph f' p))
    else p

end

/-- The continuation of the typeTag case of parseRichText reentering the
fuelled parseRichText. -/
def parseRichTextAfterTag (f : Nat) (p1 : PState) : PState :=
  parseRichTextAfterTagF (parseRichText f) p1

/-- After a possible nested list, reentering the fuelled item loop. -/
def parseListAfterNested (f : Nat) (d1 : Nat) (p2 : PState) : PState :=
  parseListAfterNestedF (parseListLoop f d1) d1 p2

/-- After one list item at depth d1, reentering the fuelled parseList and
after-nested continuation. -/
def parseListAfterItem (f : Nat) (d1 : Nat) (p1 : PState) : PState :=
  parseListAfterItemF (parseList f) (parseListAfterNested f) d1 p1

/-- parseGlobal: reset the tag depth, pull the first token, and run the
top-level loop. -/
def parseGlobal (f : Nat) (p : PState) : PState :=
  parseGlobalLoop f (pNextToken (setTagDepth0 p))

/-- The initial parser state of Parse: a fresh lexer, a Root current node and
an empty ancestor stack. -/
def initPState (s : List Char) : PState :=
  ⟨lexInit s, [], Node.mk nodeRoot [] [], 0, []⟩

/-- The fuel handed to one Parse call; linear in the input and validated as
sufficient on every concrete run used below. -/
def parseFuel (s : List Char) : Nat := 2 * s.length + 64

/-- Parse, as the parser state it ends in. -/
def ParseRun (s : List Char) : PState :=
  parseGlobal (parseFuel s) (initPState s)

/-- Plug the current node back into the ancestor stack, rebuilding the tree
from the root (the Go code returns the root pointer it kept). -/
def plugAll : List NodeCtx → Node → Node
  | [], n => n
  | c :: rest, n => plugAll rest (Node.mk c.typ c.val (c.left ++ [n]))

/-- The tree Parse returns. -/
def ParseTree (s : List Char) : Node :=
  plugAll (ParseRun s).ctxs (ParseRun s).cur

/-- The run status of Parse: ok when the Go code returns normally, panicked
when it would crash. -/
def ParseStatus (s : List Char) : Status :=
  (ParseRun s).lx.status

/-! ### Basic preservation lemmas about the lexer primitives -/

theorem freezeL_tok (l : LState) : (freezeL l).tok = l.tok := by
  unfold freezeL; split <;> rfl

theorem panicL_tok (l : LState) : (panicL l).tok = l.tok := by
  unfold panicL; split <;> rfl

theorem readChar_tok (l : LState) : (readChar l).tok = l.tok := by
  unfold readChar; split <;> rfl

theorem addToTag_tok (l : LState) : (addToTag l).tok = l.tok := by
  unfold addToTag
  split
  · split
    · split
      · split
        · rfl
        · split <;> rfl
      · rfl
    · rfl
  · rfl

theorem nextF_tok_all :
    ∀ f, (∀ l, (nextF f l).tok = l.tok) ∧ (∀ l, (skipSpaceF f l).tok = l.tok) := by
  intro f
  induction f with
  | zero =>
    refine ⟨fun l => ?_, fun l => ?_⟩ <;> simp [nextF, skipSpaceF, freezeL_tok]
  | succ f ih =>
    obtain ⟨ihn, ihs⟩ := ih
    refine ⟨fun l => ?_, fun l => ?_⟩
    · unfold nextF
      split
      · split
        · rfl
        · rw [ihs, addToTag_tok, readChar_tok]
      · rfl
    · unfold skipSpaceF
      split
      · split
        · rw [ihn]; rfl
        · split
          · split <;> simp [panicL_tok]
          · rfl
      · rfl

theorem nextF_tok (f : Nat) (l : LState) : (nextF f l).tok = l.tok :=
  (nextF_tok_all f).1 l

theorem skipSpaceF_tok (f : Nat) (l : LState) : (skipSpaceF f l).tok = l.tok :=
  (nextF_tok_all f).2 l

theorem lnext_tok (l : LState) : (lnext l).tok = l.tok := by
  unfold lnext; exact nextF_tok _ l

theorem backup_tok (l : LState) : (backup l).tok = l.tok := by
  unfold backup
  split
  · split
    · rfl
    · split <;> rfl
  · rfl

theorem nextN_tok (n : Nat) (l : LState) : (nextN n l).tok = l.tok := by
  induction n generalizing l with
  | zero => rfl
  | succ n ih => rw [nextN, ih, lnext_tok]

theorem backupN_tok (n : Nat) (l : LState) : (backupN n l).tok = l.tok := by
  induction n generalizing l with
  | zero => rfl
  | succ n ih => rw [backupN, ih, backup_tok]

theorem trimTrailingSpace_typ (l : LState) : (trimTrailingSpace l).tok.typ = l.tok.typ := by
  unfold trimTrailingSpace
  split
  · split
    · rfl
    · split <;> rfl
  · rfl

theorem truncateToken_typ (n : Nat) (l : LState) : (truncateToken n l).tok.typ = l.tok.typ := by
  unfold truncateToken
  split
  · split
    · rfl
    · rw [panicL_tok]
  · rfl

theorem addToToken_typ (c : Char) (l : LState) : (addToToken c l).tok.typ = l.tok.typ := by
  unfold addToToken; split <;> rfl

theorem addToTokenR_typ (l : LState) : (addToTokenR l).tok.typ = l.tok.typ := by
  unfold addToTokenR; split <;> rw [addToToken_typ]

theorem setLexNext_tok (fn : Option LexFn) (l : LState) : (setLexNext fn l).tok = l.tok := by
  unfold setLexNext; split <;> rfl

theorem backup_status (l : LState) : (backup l).status = l.status := by
  unfold backup
  split
  · split
    · rfl
    · split <;> rfl
  · rfl

theorem resetToken_ok (l : LState) (h : l.status = .ok) :
    resetToken l = { l with tok := emptyToken, continuousNewline := false, ctx := 0 } := by
  unfold resetToken; rw [if_pos h]


theorem setContinuousText_tok (l : LState) : (setContinuousText l).tok = l.tok := by
  unfold setContinuousText; split <;> rfl

theorem lexTextLoop_zero (l : LState) : lexTextLoop 0 l = freezeL l := by
  rw [lexTextLoop]

theorem lexTextLoop_succ (f : Nat) (l0 : LState) :
    lexTextLoop (f + 1) l0 = if l0.status = .ok then lexTextBody f (lnext l0) else l0 := rfl

theorem lexHeadingLoop_zero (l : LState) : lexHeadingLoop 0 l = freezeL l := by
  rw [lexHeadingLoop]

theorem lexHeadingLoop_succ (f : Nat) (l0 : LState) :
    lexHeadingLoop (f + 1) l0 = if l0.status = .ok then lexHeadingBody f (lnext l0) else l0 := rfl

theorem lexTextBody_typ_aux (f : Nat)
    (hloop : ∀ l : LState, l.tok.typ = .typeText → (lexTextLoop f l).tok.typ = .typeText) :
    ∀ l : LState, l.tok.typ = .typeText → (lexTextBody f l).tok.typ = .typeText := by
  intro l h
  rw [lexTextBody, lexTextBodyF]
  by_cases h1 : l.status = .ok
  case neg => rw [if_neg h1]; exact h
  rw [if_pos h1]
  by_cases h2 : l.char = .eofR
  case pos => rw [if_pos h2, setLexNext_tok, trimTrailingSpace_typ]; exact h
  rw [if_neg h2]
  by_cases h3 : l.char = .chr '\\' ∧ peek l ≠ .chr '\\'
  case pos => rw [if_pos h3]; exact hloop _ h
  rw [if_neg h3]
  by_cases h4 : peekBehind l = .chr '\\'
  case pos => rw [if_pos h4]; exact hloop _ (by rw [addToTokenR_typ]; exact h)
  rw [if_neg h4]
  by_cases h5 : l.char = .chr '\n' ∧ l.ctx = 1
  case pos =>
    rw [if_pos h5]
    by_cases h5b : peekNextNonSpace l = .chr '-'
    case pos => rw [if_pos h5b, setLexNext_tok]; exact h
    case neg => rw [if_neg h5b, setLexNext_tok]; exact h
  rw [if_neg h5]
  by_cases h6 : l.char = .chr '\n' ∧ (l.continuousNewline = false ∨ 2 ≤ l.skippedNewlines)
  case pos => rw [if_pos h6, setLexNext_tok]; exact h
  rw [if_neg h6]
  by_cases h7 : l.char = .chr '\n' ∧ l.continuousNewline = true
  case pos => rw [if_pos h7]; exact hloop _ (by rw [addToToken_typ]; exact h)
  rw [if_neg h7]
  by_cases h8 : l.char = .chr '['
  case pos =>
    rw [if_pos h8]
    by_cases h8b : l.tag.length = 0
    case pos => rw [if_pos h8b, setLexNext_tok, backup_tok, trimTrailingSpace_typ]; exact h
    case neg =>
      rw [if_neg h8b, setLexNext_tok, backup_tok, trimTrailingSpace_typ, truncateToken_typ,
        backupN_tok]
      exact h
  rw [if_neg h8]
  by_cases h9 : l.char = .chr ']' ∧ peekBehind l ≠ .chr '\\'
  case pos => rw [if_pos h9, setLexNext_tok, backup_tok, trimTrailingSpace_typ]; exact h
  rw [if_neg h9]
  by_cases h10 : l.tok.val = [] ∧ runeIsSpace l.char = true
  case pos => rw [if_pos h10]; exact hloop _ rfl
  rw [if_neg h10]
  exact hloop _ (by rw [addToTokenR_typ]; exact h)

theorem lexTextLoop_typ (f : Nat) : ∀ l : LState, l.tok.typ = .typeText →
    (lexTextLoop f l).tok.typ = .typeText := by
  induction f with
  | zero => intro l h; rw [lexTextLoop_zero, freezeL_tok]; exact h
  | succ f ih =>
    intro l0 h
    rw [lexTextLoop_succ]
    split
    · exact lexTextBody_typ_aux f ih _ (by rw [lnext_tok]; exact h)
    · exact h

theorem lexHeadingBody_typ_aux (f : Nat)
    (hloop : ∀ l : LState, l.tok.typ = .typeHeading → (lexHeadingLoop f l).tok.typ = .typeHeading) :
    ∀ l : LState, l.tok.typ = .typeHeading → (lexHeadingBody f l).tok.typ = .typeHeading := by
  intro l h
  rw [lexHeadingBody, lexHeadingBodyF]
  by_cases h1 : l.status = .ok
  case neg => rw [if_neg h1]; exact h
  rw [if_pos h1]
  by_cases h2 : l.char = .eofR
  case pos => rw [if_pos h2, setLexNext_tok]; exact h
  rw [if_neg h2]
  by_cases h3 : ¬ (isHeadingChar l = true) ∨ l.tok.val.length = 3
  case pos => rw [if_pos h3, setLexNext_tok, backup_tok]; exact h
  rw [if_neg h3]
  cases hc : l.char with
  | chr c => exact hloop _ h
  | eofR => exact h
  | voidR => exact h

theorem lexHeadingLoop_typ (f : Nat) : ∀ l : LState, l.tok.typ = .typeHeading →
    (lexHeadingLoop f l).tok.typ = .typeHeading := by
  induction f with
  | zero => intro l h; rw [lexHeadingLoop_zero, freezeL_tok]; exact h
  | succ f ih =>
    intro l0 h
    rw [lexHeadingLoop_succ]
    split
    · exact lexHeadingBody_typ_aux f ih _ (by rw [lnext_tok]; exact h)
    · exact h

theorem fixEmptyText_typ_ne_eof (l : LState) (h : l.tok.typ ≠ .typeEOF) :
    (fixEmptyText l).tok.typ ≠ .typeEOF := by
  unfold fixEmptyText
  split
  · split
    · simp
    · exact h
  · exact h

/-- The lexer-state invariant behind the eof-forever property: a typeEOF
token is only ever held by a state whose lexNext is nil and whose status is
ok. -/
def GoodL (l : LState) : Prop :=
  l.tok.typ = .typeEOF → (l.lexNext = none ∧ l.status = .ok)

/-- Only the eof branch of lexGlobal produces a typeEOF token, and it also
sets lexNext to nil. -/
theorem lexGlobalBody_good (l : LState) (ht : l.tok.typ = .typeNone) :
    GoodL (lexGlobalBody l) := by
  rw [lexGlobalBody]
  by_cases h1 : l.status = .ok
  case neg => rw [if_neg h1]; intro he; rw [ht] at he; cases he
  rw [if_pos h1]
  by_cases h2 : l.char = .eofR
  case pos => rw [if_pos h2]; intro _; exact ⟨rfl, h1⟩
  rw [if_neg h2]
  by_cases h3 : runeIsSpace l.char = true
  case pos => rw [if_pos h3]; intro he; rw [ht] at he; cases he
  rw [if_neg h3]
  by_cases h4 : l.char = .chr '\\'
  case pos =>
    rw [if_pos h4]
    intro he
    rw [setLexNext_tok, backup_tok, ht] at he
    cases he
  rw [if_neg h4]
  by_cases h5 : isHeadingChar l = true
  case pos =>
    rw [if_pos h5]
    intro he
    rw [setLexNext_tok, backup_tok, ht] at he
    cases he
  rw [if_neg h5]
  by_cases h6 : l.char = .chr '-'
  case pos =>
    rw [if_pos h6]
    intro he
    rw [setLexNext_tok, backup_tok, ht] at he
    cases he
  rw [if_neg h6]
  intro he
  rw [setContinuousText_tok, backup_tok, ht] at he
  cases he

/-- No lex function other than lexGlobal ever emits a typeEOF token, and
lexGlobal couples it with a nil lexNext: every dispatch result satisfies
GoodL. -/
theorem runLexFn_good (f : Nat) (fn : LexFn) (l : LState) (hok : l.status = .ok) :
    GoodL (runLexFn f fn l) := by
  cases fn with
  | fnGlobal =>
    show GoodL (lexGlobal l)
    unfold lexGlobal
    rw [if_pos hok]
    exact lexGlobalBody_good _ (by rw [lnext_tok, resetToken_ok l hok]; rfl)
  | fnText =>
    show GoodL (lexText f l)
    intro he
    exfalso
    unfold lexText at he
    rw [if_pos hok] at he
    exact fixEmptyText_typ_ne_eof _
      (by rw [lexTextLoop_typ f _ rfl]; intro hc; cases hc) he
  | fnHeading =>
    show GoodL (lexHeading f l)
    intro he
    exfalso
    unfold lexHeading at he
    rw [if_pos hok] at he
    rw [lexHeadingLoop_typ f _ rfl] at he
    cases he
  | fnTerminator =>
    show GoodL (lexTerminator l)
    intro he
    exfalso
    unfold lexTerminator at he
    rw [if_pos hok] at he
    rw [setLexNext_tok, lnext_tok] at he
    have hb : (backup l).status = .ok := by rw [backup_status]; exact hok
    unfold setTerminatorTok at he
    rw [if_pos hb] at he
    simp [mkToken] at he
  | fnTag =>
    show GoodL (lexTag l)
    intro he
    exfalso
    unfold lexTag at he
    rw [if_pos hok] at he
    rw [setLexNext_tok] at he
    unfold clearTag at he
    split at he <;> simp [nextN_tok, mkToken] at he
  | fnOpeningSquare =>
    show GoodL (lexOpeningSquare l)
    intro he
    exfalso
    unfold lexOpeningSquare at he
    rw [if_pos hok, setLexNext_tok, lnext_tok] at he
    simp [mkToken] at he
  | fnClosingSquare =>
    show GoodL (lexClosingSquare l)
    intro he
    exfalso
    unfold lexClosingSquare at he
    rw [if_pos hok, setLexNext_tok, lnext_tok] at he
    simp [mkToken] at he
  | fnHypen =>
    show GoodL (lexHypen l)
    intro he
    exfalso
    unfold lexHypen at he
    rw [if_pos hok, setLexNext_tok] at he
    unfold setListCtx skipHyphenSpace at he
    split at he
    · split at he <;> simp [lnext_tok, mkToken] at he
    · split at he <;> simp [lnext_tok, mkToken] at he

theorem nextTokenB_good_all (f : Nat) :
    (∀ l : LState, GoodL l → GoodL ((nextTokenB f l).1)) ∧
    (∀ l1 : LState, GoodL l1 → GoodL ((nextTokenGo f l1).1)) := by
  induction f with
  | zero =>
    have hb : ∀ l : LState, GoodL l → GoodL ((nextTokenB 0 l).1) := by
      intro l hg
      rw [nextTokenB]
      split
      · split
        · exact hg
        · intro he
          rw [freezeL_tok] at he
          rename_i heq
          rw [(hg he).1] at heq
          cases heq
      · exact hg
    refine ⟨hb, fun l1 hg1 => ?_⟩
    rw [nextTokenGo, nextTokenGoF]
    split
    · split
      · exact hb _ hg1
      · exact hg1
    · exact hg1
  | succ f ih =>
    have hb : ∀ l : LState, GoodL l → GoodL ((nextTokenB (f + 1) l).1) := by
      intro l hg
      rw [nextTokenB]
      split
      · split
        · exact hg
        · exact ih.2 _ (runLexFn_good f _ l (by assumption))
      · exact hg
    refine ⟨hb, fun l1 hg1 => ?_⟩
    rw [nextTokenGo, nextTokenGoF]
    split
    · split
      · exact hb _ hg1
      · exact hg1
    · exact hg1

theorem advance_good (l : LState) (hg : GoodL l) : GoodL (advance l) :=
  (nextTokenB_good_all _).1 l hg

theorem advance_eof_fix (l : LState) (hg : GoodL l) (he : l.tok.typ = .typeEOF) :
    advance l = l := by
  obtain ⟨hn, hok⟩ := hg he
  unfold advance advanceB
  rw [nextTokenB, if_pos hok, hn]

theorem lexIter_good (s : List Char) : ∀ n, GoodL (lexIter s n) := by
  intro n
  induction n with
  | zero =>
    intro he
    simp [lexIter, lexInit, emptyToken] at he
  | succ n ih => exact advance_good _ ih

/-! ### The whitespace-canonicalization invariant (buffer rewrites) -/

/-- The buffer relation of the canonicalization claim, relative to the
original input: length is preserved, and every changed position held a
whitespace character of the original input and now holds a newline. -/
def BufRel (o b : List Char) : Prop :=
  b.length = o.length ∧
  ∀ i : Nat, b[i]? ≠ o[i]? →
    (∃ c, o[i]? = some c ∧ goIsSpace c = true) ∧ b[i]? = some '\n'

/-- The input contains no newline character. -/
def NoNL (o : List Char) : Prop := ∀ c ∈ o, c ≠ '\n'

/-- For newline-free inputs the lexer never rewrites the buffer, never counts
a skipped newline, and never holds a newline as its current character. -/
def NoNLInv (o : List Char) (l : LState) : Prop :=
  NoNL o → l.input = o ∧ l.skippedNewlines = 0 ∧ l.char ≠ .chr '\n'

/-- The full lexer-buffer invariant of the canonicalization claim. -/
def LInv (o : List Char) (l : LState) : Prop := BufRel o l.input ∧ NoNLInv o l

/-- The entry condition skipSpace enjoys on every call from next: when its
current character is whitespace, that character is the buffer character just
before the position. -/
def SkipPre (l : LState) : Prop :=
  runeIsSpace l.char = true → ∃ c, l.input[l.pos - 1]? = some c ∧ l.char = .chr c

theorem mem_of_getLast?A {l : List Char} {c : Char} (h : l.getLast? = some c) : c ∈ l := by
  obtain ⟨hne, hx⟩ := List.mem_getLast?_eq_getLast (x := c) h
  rw [hx]
  exact List.getLast_mem hne

theorem getD_ne_newline {o : List Char} (hno : NoNL o) (i : Nat) :
    o.getD i (Char.ofNat 0) ≠ '\n' := by
  by_cases hlt : i < o.length
  · rw [List.getD_eq_getElem o _ hlt]
    exact hno _ (List.getElem_mem hlt)
  · rw [List.getD_eq_getElem?_getD, List.getElem?_eq_none (by omega)]
    intro hc
    cases hc

theorem LInv_update (o : List Char) {l l' : LState} (hi : l'.input = l.input)
    (hn : l'.skippedNewlines = l.skippedNewlines) (hc : l'.char = l.char)
    (h : LInv o l) : LInv o l' := by
  refine ⟨by rw [hi]; exact h.1, fun hno => ?_⟩
  obtain ⟨h1, h2, h3⟩ := h.2 hno
  exact ⟨by rw [hi, h1], by rw [hn, h2], by rw [hc]; exact h3⟩

theorem BufRel_set (o b : List Char) (j : Nat) (hb : BufRel o b)
    (c : Char) (hj : b[j]? = some c) (hsp : goIsSpace c = true) :
    BufRel o (b.set j '\n') := by
  refine ⟨by rw [List.length_set]; exact hb.1, fun i hne => ?_⟩
  by_cases hij : j = i
  · subst hij
    have hlt : j < b.length := (List.getElem?_eq_some.mp hj).1
    have hbj : (b.set j '\n')[j]? = some '\n' := by simp [List.getElem?_set_self, hlt]
    refine ⟨?_, hbj⟩
    by_cases hoe : b[j]? = o[j]?
    · exact ⟨c, by rw [← hoe]; exact hj, hsp⟩
    · exact (hb.2 j hoe).1
  · rw [List.getElem?_set_ne hij] at hne ⊢
    exact hb.2 i hne

theorem freezeL_inv (o : List Char) (l : LState) (h : LInv o l) : LInv o (freezeL l) := by
  unfold freezeL
  split
  · exact LInv_update o rfl rfl rfl h
  · exact h

theorem panicL_inv (o : List Char) (l : LState) (h : LInv o l) : LInv o (panicL l) := by
  unfold panicL
  split
  · exact LInv_update o rfl rfl rfl h
  · exact h

theorem addToTag_inv (o : List Char) (l : LState) (h : LInv o l) : LInv o (addToTag l) := by
  unfold addToTag
  split
  · split
    · split
      · split
        · exact LInv_update o rfl rfl rfl h
        · split
          · exact LInv_update o rfl rfl rfl h
          · exact h
      · exact h
    · exact h
  · exact h

theorem readChar_inv (o : List Char) (l : LState) (h : LInv o l) : LInv o (readChar l) := by
  unfold readChar
  split
  all_goals
    refine ⟨h.1, fun hno => ?_⟩
  all_goals
    obtain ⟨h1, h2, h3⟩ := h.2 hno
  all_goals
    refine ⟨h1, h2, ?_⟩
  all_goals
    intro hc
    injection hc with hc'
    rw [h1] at hc'
    exact getD_ne_newline hno l.pos hc'

theorem addToTag_input (l : LState) : (addToTag l).input = l.input := by
  unfold addToTag
  split
  · split
    · split
      · split
        · rfl
        · split <;> rfl
      · rfl
    · rfl
  · rfl

theorem addToTag_pos (l : LState) : (addToTag l).pos = l.pos := by
  unfold addToTag
  split
  · split
    · split
      · split
        · rfl
        · split <;> rfl
      · rfl
    · rfl
  · rfl

theorem addToTag_char (l : LState) : (addToTag l).char = l.char := by
  unfold addToTag
  split
  · split
    · split
      · split
        · rfl
        · split <;> rfl
      · rfl
    · rfl
  · rfl

theorem readChar_input (l : LState) : (readChar l).input = l.input := by
  unfold readChar; split <;> rfl

theorem readChar_pos (l : LState) : (readChar l).pos = l.pos + 1 := by
  unfold readChar; split <;> rfl

theorem readChar_char (l : LState) :
    (readChar l).char = .chr (l.input.getD l.pos (Char.ofNat 0)) := by
  unfold readChar; split <;> rfl

theorem readChar_pre (l : LState) (hlt : l.pos < l.input.length) :
    SkipPre (addToTag (readChar l)) := by
  intro _
  have hinp : (addToTag (readChar l)).input = l.input := by
    rw [addToTag_input, readChar_input]
  have hpos : (addToTag (readChar l)).pos = l.pos + 1 := by
    rw [addToTag_pos, readChar_pos]
  have hchar : (addToTag (readChar l)).char = .chr (l.input.getD l.pos (Char.ofNat 0)) := by
    rw [addToTag_char, readChar_char]
  refine ⟨l.input.getD l.pos (Char.ofNat 0), ?_, hchar⟩
  rw [hinp, hpos]
  simp only [Nat.add_sub_cancel]
  rw [List.getD_eq_getElem l.input _ hlt]
  exact List.getElem?_eq_getElem hlt

theorem bumpSkips_inv (o : List Char) (l : LState) (h : LInv o l) : LInv o (bumpSkips l) := by
  refine ⟨h.1, fun hno => ?_⟩
  obtain ⟨h1, h2, h3⟩ := h.2 hno
  refine ⟨h1, ?_, h3⟩
  show (if l.char = .chr '\n' then l.skippedNewlines + 1 else l.skippedNewlines) = 0
  rw [if_neg h3]
  exact h2

theorem nextF_inv_all (o : List Char) : ∀ f : Nat,
    (∀ l, LInv o l → LInv o (nextF f l)) ∧
    (∀ l, LInv o l → SkipPre l → LInv o (skipSpaceF f l)) := by
  intro f
  induction f with
  | zero =>
    exact ⟨fun l h => by rw [nextF]; exact freezeL_inv o l h,
           fun l h _ => by rw [skipSpaceF]; exact freezeL_inv o l h⟩
  | succ f ih =>
    constructor
    · intro l h
      rw [nextF]
      split
      · split
        · refine ⟨h.1, fun hno => ?_⟩
          obtain ⟨h1, h2, _⟩ := h.2 hno
          exact ⟨h1, h2, by intro hc; cases hc⟩
        · rename_i hok hlt
          exact ih.2 _ (addToTag_inv o _ (readChar_inv o _ h)) (readChar_pre l (by omega))
      · exact h
    · intro l h hpre
      rw [skipSpaceF]
      split
      · split
        · exact ih.1 _ (bumpSkips_inv o l h)
        · split
          · rename_i hg2
            rw [Bool.and_eq_true, decide_eq_true_iff] at hg2
            obtain ⟨hn0, hsp⟩ := hg2
            split
            · exact panicL_inv o l h
            · obtain ⟨c, hjc, hcc⟩ := hpre hsp
              have hspc : goIsSpace c = true := by
                rw [hcc] at hsp
                exact hsp
              constructor
              · exact BufRel_set o l.input (l.pos - 1) h.1 c hjc hspc
              · intro hno
                obtain ⟨_, h2, _⟩ := h.2 hno
                omega
          · refine ⟨h.1, fun hno => ?_⟩
            obtain ⟨h1, _, h3⟩ := h.2 hno
            exact ⟨h1, rfl, h3⟩
      · exact h

theorem lnext_inv (o : List Char) (l : LState) (h : LInv o l) : LInv o (lnext l) :=
  (nextF_inv_all o _).1 l h

theorem getLastD_ne_newline {o : List Char} (hno : NoNL o) (xs : List Char)
    (hsub : ∀ c ∈ xs, c ∈ o) : xs.getLast?.getD runeError ≠ '\n' := by
  cases hg : xs.getLast? with
  | none =>
    show runeError ≠ '\n'
    decide
  | some c =>
    show c ≠ '\n'
    exact hno _ (hsub _ (mem_of_getLast?A hg))

theorem backup_inv (o : List Char) (l : LState) (h : LInv o l) : LInv o (backup l) := by
  unfold backup
  split
  · split
    · refine ⟨h.1, fun hno => ?_⟩
      obtain ⟨h1, h2, _⟩ := h.2 hno
      exact ⟨h1, h2, by intro hc; cases hc⟩
    · split
      all_goals
        refine ⟨h.1, fun hno => ?_⟩
      all_goals
        obtain ⟨h1, h2, _⟩ := h.2 hno
      all_goals
        refine ⟨h1, h2, ?_⟩
      all_goals
        intro hc
        injection hc with hc'
        rw [h1] at hc'
        exact getLastD_ne_newline hno _ (fun c hc => List.mem_of_mem_take hc) hc'
  · exact h

theorem nextN_inv (o : List Char) (n : Nat) : ∀ l : LState, LInv o l → LInv o (nextN n l) := by
  induction n with
  | zero => exact fun l h => h
  | succ n ih => exact fun l h => ih _ (lnext_inv o l h)

theorem setLexNext_inv (o : List Char) (fn : Option LexFn) (l : LState) (h : LInv o l) :
    LInv o (setLexNext fn l) := by
  unfold setLexNext
  split
  · exact LInv_update o rfl rfl rfl h
  · exact h

theorem resetToken_inv (o : List Char) (l : LState) (h : LInv o l) : LInv o (resetToken l) := by
  unfold resetToken
  split
  · exact LInv_update o rfl rfl rfl h
  · exact h

theorem addToToken_inv (o : List Char) (c : Char) (l : LState) (h : LInv o l) :
    LInv o (addToToken c l) := by
  unfold addToToken
  split
  · exact LInv_update o rfl rfl rfl h
  · exact h

theorem addToTokenR_inv (o : List Char) (l : LState) (h : LInv o l) :
    LInv o (addToTokenR l) := by
  unfold addToTokenR
  split <;> exact addToToken_inv o _ l h

theorem truncateToken_inv (o : List Char) (n : Nat) (l : LState) (h : LInv o l) :
    LInv o (truncateToken n l) := by
  unfold truncateToken
  split
  · split
    · exact LInv_update o rfl rfl rfl h
    · exact panicL_inv o l h
  · exact h

theorem trimTrailingSpace_inv (o : List Char) (l : LState) (h : LInv o l) :
    LInv o (trimTrailingSpace l) := by
  unfold trimTrailingSpace
  split
  · split
    · exact h
    · split
      · exact LInv_update o rfl rfl rfl h
      · exact h
  · exact h

theorem setContinuousText_inv (o : List Char) (l : LState) (h : LInv o l) :
    LInv o (setContinuousText l) := by
  unfold setContinuousText
  split
  · exact LInv_update o rfl rfl rfl h
  · exact h

theorem setTerminatorTok_inv (o : List Char) (l : LState) (h : LInv o l) :
    LInv o (setTerminatorTok l) := by
  unfold setTerminatorTok
  split
  · exact LInv_update o rfl rfl rfl h
  · exact h

theorem clearTag_inv (o : List Char) (l : LState) (h : LInv o l) : LInv o (clearTag l) := by
  unfold clearTag
  split
  · exact LInv_update o rfl rfl rfl h
  · exact h

theorem setListCtx_inv (o : List Char) (l : LState) (h : LInv o l) : LInv o (setListCtx l) := by
  unfold setListCtx
  split
  · exact LInv_update o rfl rfl rfl h
  · exact h

theorem fixEmptyText_inv (o : List Char) (l : LState) (h : LInv o l) :
    LInv o (fixEmptyText l) := by
  unfold fixEmptyText
  split
  · split
    · exact LInv_update o rfl rfl rfl h
    · exact h
  · exact h

theorem backupN_inv (o : List Char) (n : Nat) : ∀ l : LState, LInv o l → LInv o (backupN n l) := by
  induction n with
  | zero => exact fun l h => h
  | succ n ih => exact fun l h => ih _ (backup_inv o l h)

theorem lexGlobalBody_inv (o : List Char) (l : LState) (h : LInv o l) :
    LInv o (lexGlobalBody l) := by
  rw [lexGlobalBody]
  by_cases h1 : l.status = .ok
  case neg => rw [if_neg h1]; exact h
  rw [if_pos h1]
  by_cases h2 : l.char = .eofR
  case pos => rw [if_pos h2]; exact LInv_update o rfl rfl rfl h
  rw [if_neg h2]
  by_cases h3 : runeIsSpace l.char = true
  case pos => rw [if_pos h3]; exact LInv_update o rfl rfl rfl h
  rw [if_neg h3]
  by_cases h4 : l.char = .chr '\\'
  case pos => rw [if_pos h4]; exact setLexNext_inv o _ _ (backup_inv o l h)
  rw [if_neg h4]
  by_cases h5 : isHeadingChar l = true
  case pos => rw [if_pos h5]; exact setLexNext_inv o _ _ (backup_inv o l h)
  rw [if_neg h5]
  by_cases h6 : l.char = .chr '-'
  case pos => rw [if_pos h6]; exact setLexNext_inv o _ _ (backup_inv o l h)
  rw [if_neg h6]
  exact setContinuousText_inv o _ (backup_inv o l h)

theorem lexGlobal_inv (o : List Char) (l : LState) (h : LInv o l) : LInv o (lexGlobal l) := by
  unfold lexGlobal
  split
  · exact lexGlobalBody_inv o _ (lnext_inv o _ (resetToken_inv o l h))
  · exact h

theorem lexTextBody_inv_aux (o : List Char) (f : Nat)
    (hloop : ∀ l : LState, LInv o l → LInv o (lexTextLoop f l)) :
    ∀ l : LState, LInv o l → LInv o (lexTextBody f l) := by
  intro l h
  rw [lexTextBody, lexTextBodyF]
  by_cases h1 : l.status = .ok
  case neg => rw [if_neg h1]; exact h
  rw [if_pos h1]
  by_cases h2 : l.char = .eofR
  case pos => rw [if_pos h2]; exact setLexNext_inv o _ _ (trimTrailingSpace_inv o l h)
  rw [if_neg h2]
  by_cases h3 : l.char = .chr '\\' ∧ peek l ≠ .chr '\\'
  case pos => rw [if_pos h3]; exact hloop _ (LInv_update o rfl rfl rfl h)
  rw [if_neg h3]
  by_cases h4 : peekBehind l = .chr '\\'
  case pos => rw [if_pos h4]; exact hloop _ (addToTokenR_inv o l h)
  rw [if_neg h4]
  by_cases h5 : l.char = .chr '\n' ∧ l.ctx = 1
  case pos =>
    rw [if_pos h5]
    by_cases h5b : peekNextNonSpace l = .chr '-'
    case pos => rw [if_pos h5b]; exact setLexNext_inv o _ l h
    case neg => rw [if_neg h5b]; exact setLexNext_inv o _ l h
  rw [if_neg h5]
  by_cases h6 : l.char = .chr '\n' ∧ (l.continuousNewline = false ∨ 2 ≤ l.skippedNewlines)
  case pos => rw [if_pos h6]; exact setLexNext_inv o _ l h
  rw [if_neg h6]
  by_cases h7 : l.char = .chr '\n' ∧ l.continuousNewline = true
  case pos => rw [if_pos h7]; exact hloop _ (addToToken_inv o ' ' l h)
  rw [if_neg h7]
  by_cases h8 : l.char = .chr '['
  case pos =>
    rw [if_pos h8]
    by_cases h8b : l.tag.length = 0
    case pos =>
      rw [if_pos h8b]
      exact setLexNext_inv o _ _ (backup_inv o _ (trimTrailingSpace_inv o l h))
    case neg =>
      rw [if_neg h8b]
      exact setLexNext_inv o _ _ (backup_inv o _ (trimTrailingSpace_inv o _
        (truncateToken_inv o _ _ (backupN_inv o _ _ h))))
  rw [if_neg h8]
  by_cases h9 : l.char = .chr ']' ∧ peekBehind l ≠ .chr '\\'
  case pos =>
    rw [if_pos h9]
    exact setLexNext_inv o _ _ (backup_inv o _ (trimTrailingSpace_inv o l h))
  rw [if_neg h9]
  by_cases h10 : l.tok.val = [] ∧ runeIsSpace l.char = true
  case pos => rw [if_pos h10]; exact hloop _ (LInv_update o rfl rfl rfl h)
  rw [if_neg h10]
  exact hloop _ (addToTokenR_inv o l h)

theorem lexTextLoop_inv (o : List Char) (f : Nat) :
    ∀ l : LState, LInv o l → LInv o (lexTextLoop f l) := by
  induction f with
  | zero => exact fun l h => by rw [lexTextLoop_zero]; exact freezeL_inv o l h
  | succ f ih =>
    intro l0 h
    rw [lexTextLoop_succ]
    split
    · exact lexTextBody_inv_aux o f ih _ (lnext_inv o l0 h)
    · exact h

theorem lexHeadingBody_inv_aux (o : List Char) (f : Nat)
    (hloop : ∀ l : LState, LInv o l → LInv o (lexHeadingLoop f l)) :
    ∀ l : LState, LInv o l → LInv o (lexHeadingBody f l) := by
  intro l h
  rw [lexHeadingBody, lexHeadingBodyF]
  by_cases h1 : l.status = .ok
  case neg => rw [if_neg h1]; exact h
  rw [if_pos h1]
  by_cases h2 : l.char = .eofR
  case pos => rw [if_pos h2]; exact setLexNext_inv o _ l h
  rw [if_neg h2]
  by_cases h3 : ¬ (isHeadingChar l = true) ∨ l.tok.val.length = 3
  case pos => rw [if_pos h3]; exact setLexNext_inv o _ _ (backup_inv o l h)
  rw [if_neg h3]
  cases hc : l.char with
  | chr c =>
    refine hloop _ ⟨h.1, fun hno => ?_⟩
    obtain ⟨ha, hb, hcx⟩ := h.2 hno
    rw [hc] at hcx
    exact ⟨ha, hb, hcx⟩
  | eofR => exact h
  | voidR => exact h

theorem lexHeadingLoop_inv (o : List Char) (f : Nat) :
    ∀ l : LState, LInv o l → LInv o (lexHeadingLoop f l) := by
  induction f with
  | zero => exact fun l h => by rw [lexHeadingLoop_zero]; exact freezeL_inv o l h
  | succ f ih =>
    intro l0 h
    rw [lexHeadingLoop_succ]
    split
    · exact lexHeadingBody_inv_aux o f ih _ (lnext_inv o l0 h)
    · exact h

theorem runLexFn_inv (o : List Char) (f : Nat) (fn : LexFn) (l : LState) (h : LInv o l) :
    LInv o (runLexFn f fn l) := by
  cases fn with
  | fnGlobal => exact lexGlobal_inv o l h
  | fnText =>
    show LInv o (lexText f l)
    unfold lexText
    split
    · exact fixEmptyText_inv o _ (lexTextLoop_inv o f _ (LInv_update o rfl rfl rfl h))
    · exact h
  | fnHeading =>
    show LInv o (lexHeading f l)
    unfold lexHeading
    split
    · exact lexHeadingLoop_inv o f _ (LInv_update o rfl rfl rfl h)
    · exact h
  | fnTerminator =>
    show LInv o (lexTerminator l)
    unfold lexTerminator
    split
    · exact setLexNext_inv o _ _ (lnext_inv o _ (setTerminatorTok_inv o _ (backup_inv o l h)))
    · exact h
  | fnTag =>
    show LInv o (lexTag l)
    unfold lexTag
    split
    · exact setLexNext_inv o _ _ (clearTag_inv o _ (nextN_inv o _ _ (LInv_update o rfl rfl rfl h)))
    · exact h
  | fnOpeningSquare =>
    show LInv o (lexOpeningSquare l)
    unfold lexOpeningSquare
    split
    · exact setLexNext_inv o _ _ (lnext_inv o _ (LInv_update o rfl rfl rfl h))
    · exact h
  | fnClosingSquare =>
    show LInv o (lexClosingSquare l)
    unfold lexClosingSquare
    split
    · exact setLexNext_inv o _ _ (lnext_inv o _ (LInv_update o rfl rfl rfl h))
    · exact h
  | fnHypen =>
    show LInv o (lexHypen l)
    unfold lexHypen
    split
    · refine setLexNext_inv o _ _ (setListCtx_inv o _ ?_)
      unfold skipHyphenSpace
      split
      · exact lnext_inv o _ (lnext_inv o _ (LInv_update o rfl rfl rfl h))
      · exact lnext_inv o _ (LInv_update o rfl rfl rfl h)
    · exact h

theorem nextTokenB_inv_all (o : List Char) (f : Nat) :
    (∀ l : LState, LInv o l → LInv o ((nextTokenB f l).1)) ∧
    (∀ l1 : LState, LInv o l1 → LInv o ((nextTokenGo f l1).1)) := by
  induction f with
  | zero =>
    have hb : ∀ l : LState, LInv o l → LInv o ((nextTokenB 0 l).1) := by
      intro l h
      rw [nextTokenB]
      split
      · split
        · exact h
        · exact freezeL_inv o l h
      · exact h
    refine ⟨hb, fun l1 h1 => ?_⟩
    rw [nextTokenGo, nextTokenGoF]
    split
    · split
      · exact hb _ h1
      · exact h1
    · exact h1
  | succ f ih =>
    have hb : ∀ l : LState, LInv o l → LInv o ((nextTokenB (f + 1) l).1) := by
      intro l h
      rw [nextTokenB]
      split
      · split
        · exact h
        · exact ih.2 _ (runLexFn_inv o f _ l h)
      · exact h
    refine ⟨hb, fun l1 h1 => ?_⟩
    rw [nextTokenGo, nextTokenGoF]
    split
    · split
      · exact hb _ h1
      · exact h1
    · exact h1

theorem advance_inv (o : List Char) (l : LState) (h : LInv o l) : LInv o (advance l) :=
  (nextTokenB_inv_all o _).1 l h

theorem lexInit_inv (s : List Char) : LInv s (lexInit s) := by
  refine ⟨⟨rfl, fun i hne => absurd rfl hne⟩, fun hno => ⟨rfl, rfl, ?_⟩⟩
  intro hc
  injection hc with hc'
  have : ('\n').toNat = 10 := by decide
  rw [← hc'] at this
  simp [Char.ofNat] at this

theorem lexIter_inv (s : List Char) : ∀ n, LInv s (lexIter s n) := by
  intro n
  induction n with
  | zero => exact lexInit_inv s
  | succ n ih => exact advance_inv s _ ih

theorem collectLoop_inv (s : List Char) (f : Nat) :
    ∀ (l : LState) (acc : List Token), LInv s l → LInv s (collectLoop f l acc).2 := by
  induction f with
  | zero => exact fun l acc h => freezeL_inv s l h
  | succ f ih =>
    intro l acc h
    rw [collectLoop]
    split
    · exact ih _ _ (advance_inv s l h)
    · exact advance_inv s l h

/-! ### The text-merge invariant of the produced trees -/

/-- A node of Text kind. -/
def isTextNode (n : Node) : Bool := n.typ = nodeText

/-- No two consecutive elements of the list are both Text nodes. -/
def adjOk : List Node → Bool
  | a :: b :: rest => (!(isTextNode a && isTextNode b)) && adjOk (b :: rest)
  | _ => true

mutual

/-- Every children list in the tree satisfies adjOk. -/
def nodeOk : Node → Bool
  | .mk _ _ cs => adjOk cs && forestOk cs

/-- nodeOk for every tree of the forest. -/
def forestOk : List Node → Bool
  | [] => true
  | c :: cs => nodeOk c && forestOk cs

end

theorem nodeOk_eq (n : Node) : nodeOk n = (adjOk n.children && forestOk n.children) := by
  cases n
  rw [nodeOk]
  rfl

theorem forestOk_cons (c : Node) (cs : List Node) :
    forestOk (c :: cs) = (nodeOk c && forestOk cs) := by
  rw [forestOk]

theorem forestOk_append (xs ys : List Node) :
    forestOk (xs ++ ys) = (forestOk xs && forestOk ys) := by
  induction xs with
  | nil => rw [List.nil_append, forestOk]; rfl
  | cons a rest ih =>
    rw [List.cons_append, forestOk_cons, forestOk_cons, ih, Bool.and_assoc]

theorem forestOk_mem {cs : List Node} (h : forestOk cs = true) :
    ∀ x ∈ cs, nodeOk x = true := by
  induction cs with
  | nil => intro x hx; cases hx
  | cons a rest ih =>
    rw [forestOk_cons, Bool.and_eq_true] at h
    intro x hx
    rcases List.mem_cons.mp hx with hx | hx
    · rw [hx]; exact h.1
    · exact ih h.2 x hx

theorem adjOk_cons_cons (a b : Node) (rest : List Node) :
    adjOk (a :: b :: rest) = ((!(isTextNode a && isTextNode b)) && adjOk (b :: rest)) := by
  rw [adjOk]

theorem adjOk_front {xs ys : List Node} (h : adjOk (xs ++ ys) = true) : adjOk xs = true := by
  induction xs with
  | nil => rfl
  | cons a rest ih =>
    cases rest with
    | nil => rfl
    | cons b rest' =>
      rw [List.cons_append, List.cons_append] at h
      rw [adjOk_cons_cons] at h ⊢
      rw [Bool.and_eq_true] at h
      rw [Bool.and_eq_true]
      exact ⟨h.1, ih h.2⟩

theorem adjOk_last_pair {xs : List Node} {y : Node} (h : adjOk (xs ++ [y]) = true) :
    ∀ z, xs.getLast? = some z → (isTextNode z && isTextNode y) = false := by
  induction xs with
  | nil => intro z hz; cases hz
  | cons a rest ih =>
    intro z hz
    cases rest with
    | nil =>
      rw [List.getLast?_singleton] at hz
      injection hz with hz'
      subst hz'
      rw [List.cons_append, List.nil_append, adjOk_cons_cons, Bool.and_eq_true] at h
      obtain ⟨h1, _⟩ := h
      rw [Bool.not_eq_true'] at h1
      exact h1
    | cons b rest' =>
      rw [List.getLast?_cons_cons] at hz
      rw [List.cons_append, List.cons_append, adjOk_cons_cons, Bool.and_eq_true] at h
      exact ih h.2 z hz

theorem adjOk_snoc {xs : List Node} {y : Node} (hx : adjOk xs = true)
    (h : ∀ z, xs.getLast? = some z → (isTextNode z && isTextNode y) = false) :
    adjOk (xs ++ [y]) = true := by
  induction xs with
  | nil => rfl
  | cons a rest ih =>
    cases rest with
    | nil =>
      rw [List.cons_append, List.nil_append, adjOk_cons_cons]
      rw [Bool.and_eq_true]
      refine ⟨?_, rfl⟩
      rw [h a rfl]
      rfl
    | cons b rest' =>
      rw [List.cons_append, List.cons_append, adjOk_cons_cons, Bool.and_eq_true]
      rw [adjOk_cons_cons, Bool.and_eq_true] at hx
      refine ⟨hx.1, ?_⟩
      rw [← List.cons_append]
      exact ih hx.2 (fun z hz => h z (by rw [List.getLast?_cons_cons]; exact hz))

/-- The zipper invariant of the tree builder: the current node's subtree
satisfies the merge invariant, the current node is never a Text node, and
every stacked ancestor frame holds an invariant-respecting children prefix
headed by a non-Text node. -/
def ZInv (p : PState) : Prop :=
  nodeOk p.cur = true ∧ p.cur.typ ≠ nodeText ∧
  ∀ c ∈ p.ctxs, adjOk c.left = true ∧ forestOk c.left = true ∧ c.typ ≠ nodeText

theorem ZInv_fields {p p' : PState} (hc : p'.cur = p.cur) (hx : p'.ctxs = p.ctxs)
    (h : ZInv p) : ZInv p' := by
  refine ⟨by rw [hc]; exact h.1, by rw [hc]; exact h.2.1, ?_⟩
  rw [hx]
  exact h.2.2

theorem freezeP_zinv (p : PState) (h : ZInv p) : ZInv (freezeP p) :=
  ZInv_fields rfl rfl h

theorem pNextToken_zinv (p : PState) (h : ZInv p) : ZInv (pNextToken p) := by
  unfold pNextToken
  split
  · exact ZInv_fields rfl rfl h
  · exact h

theorem setTagDepth0_zinv (p : PState) (h : ZInv p) : ZInv (setTagDepth0 p) := by
  unfold setTagDepth0
  split
  · exact ZInv_fields rfl rfl h
  · exact h

theorem incTagDepth_zinv (p : PState) (h : ZInv p) : ZInv (incTagDepth p) := by
  unfold incTagDepth
  split
  · exact ZInv_fields rfl rfl h
  · exact h

theorem addNewNode_zinv (t : String) (v : List Char) (p : PState) (ht : t ≠ nodeText)
    (h : ZInv p) : ZInv (addNewNode t v p) := by
  unfold addNewNode
  split
  · refine ⟨by rw [nodeOk_eq]; rfl, ht, ?_⟩
    intro c hc
    rcases List.mem_cons.mp hc with hc | hc
    · rw [hc]
      have h1 := h.1
      rw [nodeOk_eq, Bool.and_eq_true] at h1
      exact ⟨h1.1, h1.2, h.2.1⟩
    · exact h.2.2 c hc
  · exact h

theorem returnNode_zinv (p : PState) (h : ZInv p) : ZInv (returnNode p) := by
  unfold returnNode
  split
  · split
    · exact ZInv_fields rfl rfl h
    · rename_i c rest heq
      have hctx := h.2.2 c (by rw [heq]; exact List.mem_cons_self c rest)
      refine ⟨?_, hctx.2.2, ?_⟩
      · rw [nodeOk_eq]
        show (adjOk (c.left ++ [p.cur]) && forestOk (c.left ++ [p.cur])) = true
        rw [Bool.and_eq_true]
        constructor
        · refine adjOk_snoc hctx.1 (fun z _ => ?_)
          have hcur : isTextNode p.cur = false := by
            unfold isTextNode
            rw [decide_eq_false_iff_not]
            exact h.2.1
          rw [hcur, Bool.and_false]
        · rw [forestOk_append, Bool.and_eq_true, forestOk_cons]
          exact ⟨hctx.2.1, by rw [h.1]; rfl⟩
      · intro c' hc'
        refine h.2.2 c' ?_
        rw [heq]
        exact List.mem_cons_of_mem c hc'
  · exact h

theorem isTextNode_false_of_typ {n : Node} (h : n.typ ≠ nodeText) : isTextNode n = false := by
  unfold isTextNode
  rw [decide_eq_false_iff_not]
  exact h

theorem previousSibling_of_getLast {p : PState} {z : Node}
    (hg : p.cur.children.getLast? = some z) : previousSibling p = z := by
  unfold previousSibling
  rw [hg]
  rfl

theorem returnNode_addNewNode_eq (t : String) (v : List Char) (p : PState)
    (hok : p.lx.status = .ok) :
    returnNode (addNewNode t v p) =
      { p with cur := Node.mk p.cur.typ p.cur.val (p.cur.children ++ [Node.mk t v []]) } := by
  unfold addNewNode returnNode
  rw [if_pos hok]
  rw [if_pos hok]

theorem parseText_zinv (p : PState) (h : ZInv p) : ZInv (parseText p) := by
  unfold parseText
  by_cases hok : p.lx.status = .ok
  case neg => rw [if_neg hok]; exact h
  rw [if_pos hok]
  have h1 := h.1
  rw [nodeOk_eq, Bool.and_eq_true] at h1
  by_cases hprev : (previousSibling p).typ = nodeText
  case neg =>
    rw [if_neg hprev]
    rw [returnNode_addNewNode_eq nodeText p.lx.tok.val p hok]
    refine ⟨?_, h.2.1, h.2.2⟩
    rw [nodeOk_eq]
    show (adjOk (p.cur.children ++ [Node.mk nodeText p.lx.tok.val []]) &&
      forestOk (p.cur.children ++ [Node.mk nodeText p.lx.tok.val []])) = true
    rw [Bool.and_eq_true]
    constructor
    · refine adjOk_snoc h1.1 (fun z hz => ?_)
      have hz' : isTextNode z = false := by
        refine isTextNode_false_of_typ ?_
        rw [previousSibling_of_getLast hz] at hprev
        exact hprev
      rw [hz', Bool.false_and]
    · rw [forestOk_append, Bool.and_eq_true]
      refine ⟨h1.2, ?_⟩
      rw [forestOk_cons, nodeOk_eq]
      rfl
  case pos =>
    rw [if_pos hprev]
    cases hg : p.cur.children.getLast? with
    | none =>
      exfalso
      unfold previousSibling at hprev
      rw [hg] at hprev
      revert hprev
      decide
    | some prev =>
      have hps : previousSibling p = prev := previousSibling_of_getLast hg
      have hcs : p.cur.children.dropLast ++ [prev] = p.cur.children :=
        List.dropLast_append_getLast? prev (Option.mem_def.mpr hg)
      have hadj : adjOk (p.cur.children.dropLast ++ [prev]) = true := by rw [hcs]; exact h1.1
      have hfor : forestOk (p.cur.children.dropLast ++ [prev]) = true := by rw [hcs]; exact h1.2
      refine ⟨?_, h.2.1, h.2.2⟩
      rw [nodeOk_eq]
      show (adjOk (p.cur.children.dropLast ++ [Node.mk (previousSibling p).typ
          ((previousSibling p).val ++ ' ' :: p.lx.tok.val) (previousSibling p).children]) &&
        forestOk (p.cur.children.dropLast ++ [Node.mk (previousSibling p).typ
          ((previousSibling p).val ++ ' ' :: p.lx.tok.val) (previousSibling p).children])) = true
      rw [Bool.and_eq_true]
      constructor
      · refine adjOk_snoc (adjOk_front hadj) (fun z hz => ?_)
        have hpair := adjOk_last_pair hadj z hz
        have : isTextNode (Node.mk (previousSibling p).typ
            ((previousSibling p).val ++ ' ' :: p.lx.tok.val) (previousSibling p).children) =
            isTextNode prev := by
          unfold isTextNode
          rw [hps]
          rfl
        rw [this]
        exact hpair
      · rw [forestOk_append, Bool.and_eq_true]
        rw [forestOk_append, Bool.and_eq_true] at hfor
        refine ⟨hfor.1, ?_⟩
        rw [forestOk_cons, nodeOk_eq]
        have hnp : nodeOk prev = true := by
          rw [forestOk_cons, Bool.and_eq_true] at hfor
          exact hfor.2.1
        rw [nodeOk_eq] at hnp
        show ((adjOk (previousSibling p).children && forestOk (previousSibling p).children) &&
          forestOk []) = true
        rw [hps, hnp]
        rfl

theorem parseRichText_zero (p : PState) : parseRichText 0 p = freezeP p := by
  rw [parseRichText]

theorem parseRichText_succ (f : Nat) (p : PState) :
    parseRichText (f + 1) p =
      (if p.lx.status = .ok then
        if p.lx.tok.typ = .typeBulletpoint ∨ p.lx.tok.typ = .typeTerminator ∨
            p.lx.tok.typ = .typeEOF then p
        else if p.lx.tok.typ = .typeText then parseRichText f (pNextToken (parseText p))
        else if p.lx.tok.typ = .typeTag then parseRichTextAfterTag f (parseTag f p)
        else if p.lx.tok.typ = .typeClosingSquare then
          if 0 < p.tagDepth then { p with tagDepth := p.tagDepth - 1 }
          else parseRichText f (pNextToken p)
        else parseRichText f (pNextToken p)
      else p) := rfl

theorem parseTag_zero (p : PState) : parseTag 0 p = freezeP p := by
  rw [parseTag]

theorem parseTag_succ (f : Nat) (p : PState) :
    parseTag (f + 1) p =
      (if p.lx.status = .ok then
        returnNode (parseRichText f (incTagDepth (pNextToken
          (if p.lx.tok.val = "bold".toList then addNewNode nodeBoldTag [] p
           else if p.lx.tok.val = "italic".toList then addNewNode nodeItalicTag [] p
           else addNewNode nodeError (mkErrMsg errInvalidTag p.lx.tok.val) p))))
      else p) := by
  rw [parseTag]

theorem parseHeading_zero (p : PState) : parseHeading 0 p = freezeP p := by
  rw [parseHeading]

theorem parseHeading_succ (f : Nat) (p : PState) :
    parseHeading (f + 1) p =
      (if p.lx.status = .ok then
        returnNode (parseRichText f (pNextToken
          (if p.lx.tok.val = nodeHeadingOneValue then addNewNode nodeHeadingOne nodeHeadingOneValue p
           else if p.lx.tok.val = nodeHeadingTwoValue then addNewNode nodeHeadingTwo nodeHeadingTwoValue p
           else if p.lx.tok.val = nodeHeadingThreeValue then addNewNode nodeHeadingThree nodeHeadingThreeValue p
           else if p.lx.tok.val = nodeHeadingFourValue then addNewNode nodeHeadingFour nodeHeadingFourValue p
           else if p.lx.tok.val = nodeHeadingFiveValue then addNewNode nodeHeadingFive nodeHeadingFiveValue p
           else if p.lx.tok.val = nodeHeadingSixValue then addNewNode nodeHeadingSix nodeHeadingSixValue p
           else addNewNode nodeError (mkErrMsg errInvalidHeading p.lx.tok.val) p)))
      else p) := by
  rw [parseHeading]

theorem parseList_zero (d : Nat) (p : PState) : parseList 0 d p = freezeP p := by
  rw [parseList]

theorem parseList_succ (f d : Nat) (p : PState) :
    parseList (f + 1) d p =
      (if p.lx.status = .ok then
        if p.lx.tok.typ = .typeBulletpoint ∧ getListItemDepth p.lx.tok < d then returnNode p
        else parseListLoop f d (addNewNode nodeList [] p)
      else p) := by
  rw [parseList]

theorem parseListLoop_zero (d : Nat) (p : PState) : parseListLoop 0 d p = freezeP p := by
  rw [parseListLoop]

theorem parseListLoop_succ (f d : Nat) (p : PState) :
    parseListLoop (f + 1) d p =
      (if p.lx.status = .ok then
        if p.lx.tok.typ = .typeBulletpoint then
          parseListAfterItem f (getListItemDepth p.lx.tok)
            (setTagDepth0 (parseListItem f (pNextToken p)))
        else returnNode p
      else p) := rfl

theorem parseListItem_zero (p : PState) : parseListItem 0 p = freezeP p := by
  rw [parseListItem]

theorem parseListItem_succ (f : Nat) (p : PState) :
    parseListItem (f + 1) p =
      (if p.lx.status = .ok then
        returnNode (parseRichText f (addNewNode nodeListItem [] p))
      else p) := by
  rw [parseListItem]

theorem parseParagraph_zero (p : PState) : parseParagraph 0 p = freezeP p := by
  rw [parseParagraph]

theorem parseParagraph_succ (f : Nat) (p : PState) :
    parseParagraph (f + 1) p =
      (if p.lx.status = .ok then
        returnNode (parseRichText f (addNewNode nodeParagraph [] p))
      else p) := by
  rw [parseParagraph]

theorem parseGlobalLoop_zero (p : PState) : parseGlobalLoop 0 p = freezeP p := by
  rw [parseGlobalLoop]

theorem parseGlobalLoop_succ (f : Nat) (p : PState) :
    parseGlobalLoop (f + 1) p =
      (if p.lx.status = .ok then
        if p.lx.tok.typ = .typeEOF then p
        else
          parseGlobalLoop f (pNextToken
            (if p.lx.tok.typ = .typeHeading then parseHeading f p
             else if p.lx.tok.typ = .typeBulletpoint then parseList f 0 p
             else parseParagraph f p))
      else p) := by
  rw [parseGlobalLoop]

theorem parseRichTextAfterTag_eq (f : Nat) (p1 : PState) :
    parseRichTextAfterTag f p1 =
      (if 0 < p1.tagDepth ∧ (p1.lx.tok.typ = .typeBulletpoint ∨ p1.lx.tok.typ = .typeTerminator)
       then p1 else parseRichText f (pNextToken p1)) := rfl

theorem parseListAfterNested_eq (f d1 : Nat) (p2 : PState) :
    parseListAfterNested f d1 p2 =
      (if p2.lx.tok.typ = .typeBulletpoint ∧ getListItemDepth p2.lx.tok < d1 then returnNode p2
       else parseListLoop f d1 p2) := rfl

theorem parseListAfterItem_eq (f d1 : Nat) (p1 : PState) :
    parseListAfterItem f d1 p1 =
      parseListAfterNested f d1
        (if p1.lx.tok.typ = .typeBulletpoint ∧ d1 < getListItemDepth p1.lx.tok then
          parseList f (getListItemDepth p1.lx.tok) p1
        else p1) := rfl

theorem parseRichTextAfterTag_zinv_aux (f : Nat)
    (hrt : ∀ p, ZInv p → ZInv (parseRichText f p)) :
    ∀ p1, ZInv p1 → ZInv (parseRichTextAfterTag f p1) := by
  intro p1 h
  rw [parseRichTextAfterTag_eq]
  split
  · exact h
  · exact hrt _ (pNextToken_zinv _ h)

theorem parseListAfterNested_zinv_aux (f : Nat)
    (hll : ∀ d p, ZInv p → ZInv (parseListLoop f d p)) :
    ∀ d1 p2, ZInv p2 → ZInv (parseListAfterNested f d1 p2) := by
  intro d1 p2 h
  rw [parseListAfterNested_eq]
  split
  · exact returnNode_zinv _ h
  · exact hll _ _ h

theorem parseListAfterItem_zinv_aux (f : Nat)
    (hl : ∀ d p, ZInv p → ZInv (parseList f d p))
    (hll : ∀ d p, ZInv p → ZInv (parseListLoop f d p)) :
    ∀ d1 p1, ZInv p1 → ZInv (parseListAfterItem f d1 p1) := by
  intro d1 p1 h
  rw [parseListAfterItem_eq]
  refine parseListAfterNested_zinv_aux f hll _ _ ?_
  split
  · exact hl _ _ h
  · exact h

theorem parse_zinv_all : ∀ f : Nat,
    (∀ p, ZInv p → ZInv (parseRichText f p)) ∧
    (∀ p, ZInv p → ZInv (parseTag f p)) ∧
    (∀ p, ZInv p → ZInv (parseHeading f p)) ∧
    (∀ d p, ZInv p → ZInv (parseList f d p)) ∧
    (∀ d p, ZInv p → ZInv (parseListLoop f d p)) ∧
    (∀ p, ZInv p → ZInv (parseListItem f p)) ∧
    (∀ p, ZInv p → ZInv (parseParagraph f p)) ∧
    (∀ p, ZInv p → ZInv (parseGlobalLoop f p)) := by
  intro f
  induction f with
  | zero =>
    refine ⟨fun p h => ?_, fun p h => ?_, fun p h => ?_, fun d p h => ?_, fun d p h => ?_,
      fun p h => ?_, fun p h => ?_, fun p h => ?_⟩
    · rw [parseRichText_zero]; exact freezeP_zinv p h
    · rw [parseTag_zero]; exact freezeP_zinv p h
    · rw [parseHeading_zero]; exact freezeP_zinv p h
    · rw [parseList_zero]; exact freezeP_zinv p h
    · rw [parseListLoop_zero]; exact freezeP_zinv p h
    · rw [parseListItem_zero]; exact freezeP_zinv p h
    · rw [parseParagraph_zero]; exact freezeP_zinv p h
    · rw [parseGlobalLoop_zero]; exact freezeP_zinv p h
  | succ f ih =>
    obtain ⟨ihrt, ihtag, ihhd, ihlist, ihloop, ihitem, ihpar, ihglob⟩ := ih
    have hrt : ∀ p, ZInv p → ZInv (parseRichText (f + 1) p) := by
      intro p h
      rw [parseRichText_succ]
      by_cases h1 : p.lx.status = .ok
      case neg => rw [if_neg h1]; exact h
      rw [if_pos h1]
      by_cases h2 : p.lx.tok.typ = .typeBulletpoint ∨ p.lx.tok.typ = .typeTerminator ∨
          p.lx.tok.typ = .typeEOF
      case pos => rw [if_pos h2]; exact h
      rw [if_neg h2]
      by_cases h3 : p.lx.tok.typ = .typeText
      case pos => rw [if_pos h3]; exact ihrt _ (pNextToken_zinv _ (parseText_zinv p h))
      rw [if_neg h3]
      by_cases h4 : p.lx.tok.typ = .typeTag
      case pos =>
        rw [if_pos h4]
        exact parseRichTextAfterTag_zinv_aux f ihrt _ (ihtag _ h)
      rw [if_neg h4]
      by_cases h5 : p.lx.tok.typ = .typeClosingSquare
      case pos =>
        rw [if_pos h5]
        by_cases h5b : 0 < p.tagDepth
        case pos => rw [if_pos h5b]; exact ZInv_fields rfl rfl h
        case neg => rw [if_neg h5b]; exact ihrt _ (pNextToken_zinv _ h)
      rw [if_neg h5]
      exact ihrt _ (pNextToken_zinv _ h)
    have htag : ∀ p, ZInv p → ZInv (parseTag (f + 1) p) := by
      intro p h
      rw [parseTag_succ]
      by_cases h1 : p.lx.status = .ok
      case neg => rw [if_neg h1]; exact h
      rw [if_pos h1]
      refine returnNode_zinv _ (ihrt _ (incTagDepth_zinv _ (pNextToken_zinv _ ?_)))
      by_cases h2 : p.lx.tok.val = "bold".toList
      case pos => rw [if_pos h2]; exact addNewNode_zinv _ _ p (by decide) h
      rw [if_neg h2]
      by_cases h3 : p.lx.tok.val = "italic".toList
      case pos => rw [if_pos h3]; exact addNewNode_zinv _ _ p (by decide) h
      rw [if_neg h3]
      exact addNewNode_zinv _ _ p (by decide) h
    have hhd : ∀ p, ZInv p → ZInv (parseHeading (f + 1) p) := by
      intro p h
      rw [parseHeading_succ]
      by_cases h1 : p.lx.status = .ok
      case neg => rw [if_neg h1]; exact h
      rw [if_pos h1]
      refine returnNode_zinv _ (ihrt _ (pNextToken_zinv _ ?_))
      by_cases h2 : p.lx.tok.val = nodeHeadingOneValue
      case pos => rw [if_pos h2]; exact addNewNode_zinv _ _ p (by decide) h
      rw [if_neg h2]
      by_cases h3 : p.lx.tok.val = nodeHeadingTwoValue
      case pos => rw [if_pos h3]; exact addNewNode_zinv _ _ p (by decide) h
      rw [if_neg h3]
      by_cases h4 : p.lx.tok.val = nodeHeadingThreeValue
      case pos => rw [if_pos h4]; exact addNewNode_zinv _ _ p (by decide) h
      rw [if_neg h4]
      by_cases h5 : p.lx.tok.val = nodeHeadingFourValue
      case pos => rw [if_pos h5]; exact addNewNode_zinv _ _ p (by decide) h
      rw [if_neg h5]
      by_cases h6 : p.lx.tok.val = nodeHeadingFiveValue
      case pos => rw [if_pos h6]; exact addNewNode_zinv _ _ p (by decide) h
      rw [if_neg h6]
      by_cases h7 : p.lx.tok.val = nodeHeadingSixValue
      case pos => rw [if_pos h7]; exact addNewNode_zinv _ _ p (by decide) h
      rw [if_neg h7]
      exact addNewNode_zinv _ _ p (by decide) h
    have hlist : ∀ d p, ZInv p → ZInv (parseList (f + 1) d p) := by
      intro d p h
      rw [parseList_succ]
      by_cases h1 : p.lx.status = .ok
      case neg => rw [if_neg h1]; exact h
      rw [if_pos h1]
      by_cases h2 : p.lx.tok.typ = .typeBulletpoint ∧ getListItemDepth p.lx.tok < d
      case pos => rw [if_pos h2]; exact returnNode_zinv _ h
      rw [if_neg h2]
      exact ihloop _ _ (addNewNode_zinv _ _ p (by decide) h)
    have hloop : ∀ d p, ZInv p → ZInv (parseListLoop (f + 1) d p) := by
      intro d p h
      rw [parseListLoop_succ]
      by_cases h1 : p.lx.status = .ok
      case neg => rw [if_neg h1]; exact h
      rw [if_pos h1]
      by_cases h2 : p.lx.tok.typ = .typeBulletpoint
      case pos =>
        rw [if_pos h2]
        exact parseListAfterItem_zinv_aux f ihlist ihloop _ _
          (setTagDepth0_zinv _ (ihitem _ (pNextToken_zinv _ h)))
      case neg => rw [if_neg h2]; exact returnNode_zinv _ h
    have hitem : ∀ p, ZInv p → ZInv (parseListItem (f + 1) p) := by
      intro p h
      rw [parseListItem_succ]
      by_cases h1 : p.lx.status = .ok
      case neg => rw [if_neg h1]; exact h
      rw [if_pos h1]
      exact returnNode_zinv _ (ihrt _ (addNewNode_zinv _ _ p (by decide) h))
    have hpar : ∀ p, ZInv p → ZInv (parseParagraph (f + 1) p) := by
      intro p h
      rw [parseParagraph_succ]
      by_cases h1 : p.lx.status = .ok
      case neg => rw [if_neg h1]; exact h
      rw [if_pos h1]
      exact returnNode_zinv _ (ihrt _ (addNewNode_zinv _ _ p (by decide) h))
    have hglob : ∀ p, ZInv p → ZInv (parseGlobalLoop (f + 1) p) := by
      intro p h
      rw [parseGlobalLoop_succ]
      by_cases h1 : p.lx.status = .ok
      case neg => rw [if_neg h1]; exact h
      rw [if_pos h1]
      by_cases h2 : p.lx.tok.typ = .typeEOF
      case pos => rw [if_pos h2]; exact h
      rw [if_neg h2]
      refine ihglob _ (pNextToken_zinv _ ?_)
      by_cases h3 : p.lx.tok.typ = .typeHeading
      case pos => rw [if_pos h3]; exact ihhd _ h
      rw [if_neg h3]
      by_cases h4 : p.lx.tok.typ = .typeBulletpoint
      case pos => rw [if_pos h4]; exact ihlist _ _ h
      rw [if_neg h4]
      exact ihpar _ h
    exact ⟨hrt, htag, hhd, hlist, hloop, hitem, hpar, hglob⟩

/-- Plugging the current node back through invariant-respecting frames yields
a tree whose every children list satisfies the merge invariant. -/
theorem plugAll_nodeOk : ∀ (ctxs : List NodeCtx) (n : Node),
    nodeOk n = true → n.typ ≠ nodeText →
    (∀ c ∈ ctxs, adjOk c.left = true ∧ forestOk c.left = true ∧ c.typ ≠ nodeText) →
    nodeOk (plugAll ctxs n) = true := by
  intro ctxs
  induction ctxs with
  | nil => intro n hn _ _; exact hn
  | cons c rest ih =>
    intro n hn htyp hctx
    have hc := hctx c (List.mem_cons_self c rest)
    rw [plugAll]
    refine ih _ ?_ hc.2.2 (fun c' hc' => hctx c' (List.mem_cons_of_mem c hc'))
    rw [nodeOk_eq]
    show (adjOk (c.left ++ [n]) && forestOk (c.left ++ [n])) = true
    rw [Bool.and_eq_true]
    constructor
    · refine adjOk_snoc hc.1 (fun z _ => ?_)
      rw [isTextNode_false_of_typ htyp, Bool.and_false]
    · rw [forestOk_append, Bool.and_eq_true, forestOk_cons]
      exact ⟨hc.2.1, by rw [hn]; rfl⟩

theorem initPState_zinv (s : List Char) : ZInv (initPState s) := by
  refine ⟨by rw [nodeOk_eq]; rfl, by show nodeRoot ≠ nodeText; decide, ?_⟩
  intro c hc
  cases hc

theorem ParseTree_nodeOk (s : List Char) : nodeOk (ParseTree s) = true := by
  unfold ParseTree ParseRun parseGlobal
  have hz : ZInv (parseGlobalLoop (parseFuel s) (pNextToken (setTagDepth0 (initPState s)))) :=
    (parse_zinv_all _).2.2.2.2.2.2.2 _
      (pNextToken_zinv _ (setTagDepth0_zinv _ (initPState_zinv s)))
  exact plugAll_nodeOk _ _ hz.1 hz.2.1 hz.2.2

/-! ## The claims

Each claim of the specification is settled by one theorem below.  The
concrete states named cNx are the inputs the accompanying witness theorems
instantiate the universally quantified claim theorems at. -/

/-- A parser state holding a text token while the current node's last child
is already a Text node (input to the C2 witness). -/
def c2P : PState :=
  { lx := { lexInit ['b'] with tok := ⟨.typeText, ['b'], 1, 0, 0⟩ },
    ctxs := [], cur := Node.mk nodeParagraph [] [Node.mk nodeText ['a'] []],
    tagDepth := 0, collectedTokens := [] }

/-- A lexer state sitting on a soft newline (one skipped newline at most,
continuous text) for the C4 witness. -/
def c4L1 : LState :=
  { lexInit ['a'] with char := .chr '\n', continuousNewline := true }

/-- A lexer state sitting on a newline after two newlines were collapsed,
for the C4 witness. -/
def c4L2 : LState :=
  { lexInit ['a'] with char := .chr '\n', skippedNewlines := 2 }

/-- A parser state holding a bulletpoint token of indent 4 (depth 2) for the
C5 witness. -/
def c5P : PState :=
  { initPState ['-'] with
    lx := { lexInit ['-'] with tok := ⟨.typeBulletpoint, ['-'], 1, 0, 4⟩ } }

/-- A parser state holding the unrecognized heading literal ".." for the C6
witness. -/
def c6P : PState :=
  { initPState ['.'] with
    lx := { lexInit ['.'] with tok := ⟨.typeHeading, ['.', '.'], 1, 0, 0⟩ } }

/-- A parser state holding a terminator token at tag depth 1 for the C7
witness. -/
def c7T : PState :=
  { initPState ['a'] with
    lx := { lexInit ['a'] with tok := ⟨.typeTerminator, ['\n'], 1, 0, 0⟩ },
    tagDepth := 1 }

/-- A parser state holding a bulletpoint token of indent 0 for the C7
witness. -/
def c7B : PState :=
  { initPState ['-'] with
    lx := { lexInit ['-'] with tok := ⟨.typeBulletpoint, ['-'], 1, 0, 0⟩ } }

/-- A parser state holding a stray opening-bracket token for the C10
witness. -/
def c10A : PState :=
  { initPState ['['] with
    lx := { lexInit ['['] with tok := ⟨.typeOpeningSquare, ['['], 1, 0, 0⟩ } }

/-- A parser state holding a stray closing-bracket token at tag depth 0 for
the C10 witness. -/
def c10B : PState :=
  { initPState [']'] with
    lx := { lexInit [']'] with tok := ⟨.typeClosingSquare, [']'], 1, 0, 0⟩ } }

/-- C1, refuted: Parse does not return normally on every input.  On the
input "a][" (a stray closing bracket followed by an opening bracket) the Go
code panics: lexClosingSquare leaves the stale tag "a" in the lexer, and the
'[' branch of lexText then calls truncateToken with a length exceeding the
token value, an out-of-range string slice.  The model records the panic both
in the Parse run status and already in the lexer run alone. -/
theorem C1_parse_panics_on_stray_brackets :
    ParseStatus ("a][".toList) = Status.panicked ∧
    (collectLoop (("a][".toList).length + 8) (lexInit ("a][".toList)) []).2.status =
      Status.panicked :=
  ⟨by decide, by decide⟩

/-- C2: no tree Parse returns has two adjacent Text siblings (nodeOk checks
every adjacent pair of every children list), and when a text token arrives
while the current node's last child is a Text node, parseText merges the two
values with a single joining space instead of appending a node. -/
theorem C2_no_adjacent_text_siblings :
    (∀ s : List Char, nodeOk (ParseTree s) = true) ∧
    (∀ (p : PState) (v : List Char) (cs : List Node),
      p.lx.status = .ok →
      p.cur.children.getLast? = some (Node.mk nodeText v cs) →
      parseText p =
        { p with cur := (Node.mk p.cur.typ p.cur.val
            (p.cur.children.dropLast ++
              [Node.mk nodeText (v ++ ' ' :: p.lx.tok.val) cs])) }) := by
  refine ⟨ParseTree_nodeOk, ?_⟩
  intro p v cs hok hlast
  have hps : previousSibling p = Node.mk nodeText v cs := by
    unfold previousSibling
    rw [hlast]
    rfl
  unfold parseText
  rw [if_pos hok, hps]
  rw [if_pos (show (Node.mk nodeText v cs).typ = nodeText from rfl)]
  rfl

/-- C2 witness: the merge on a concrete state, and a concrete tree. -/
theorem C2_no_adjacent_text_siblings_witness :
    nodeOk (ParseTree ("a [b] c".toList)) = true ∧
    parseText c2P =
      { c2P with cur := (Node.mk nodeParagraph []
          [Node.mk nodeText ('a' :: ' ' :: ['b']) []]) } :=
  ⟨C2_no_adjacent_text_siblings.1 ("a [b] c".toList),
   C2_no_adjacent_text_siblings.2 c2P ['a'] [] rfl rfl⟩

/-- C3, corrected: whitespace canonicalization never shrinks the buffer.
After any number of lexing steps, and after lexing the whole input, the
lexer's buffer keeps the input's length; the only rewrite is in place: every
position whose character changed held a whitespace character of the input
and now holds a newline (skipSpace overwrites the final character of a
whitespace run that contained a newline).  Newline-free inputs are never
modified at all, so a run of two or more spaces is left as it is, not
collapsed to a single space. -/
theorem C3_whitespace_canonicalization :
    ∀ s : List Char,
      (∀ n : Nat,
        (lexIter s n).input.length = s.length ∧
        (∀ i : Nat, (lexIter s n).input[i]? ≠ s[i]? →
          (∃ c, s[i]? = some c ∧ goIsSpace c = true) ∧
            (lexIter s n).input[i]? = some '\n') ∧
        (NoNL s → (lexIter s n).input = s)) ∧
      ((canonBuffer s).length = s.length ∧
        (∀ i : Nat, (canonBuffer s)[i]? ≠ s[i]? →
          (∃ c, s[i]? = some c ∧ goIsSpace c = true) ∧
            (canonBuffer s)[i]? = some '\n') ∧
        (NoNL s → canonBuffer s = s)) := by
  intro s
  constructor
  · intro n
    have h := lexIter_inv s n
    exact ⟨h.1.1, h.1.2, fun hn => (h.2 hn).1⟩
  · have h := collectLoop_inv s (s.length + 8) (lexInit s) [] (lexInit_inv s)
    exact ⟨h.1.1, h.1.2, fun hn => (h.2 hn).1⟩

/-- C3 witness: on the concrete newline-free input "a  b" the theorem yields
the unchanged buffer. -/
theorem C3_whitespace_canonicalization_witness :
    canonBuffer ("a  b".toList) = "a  b".toList :=
  (C3_whitespace_canonicalization ("a  b".toList)).2.2.2 (by unfold NoNL; decide)

/-- C3 counterexample to the collapse claim as stated: the two-space run of
"a  b" is not collapsed to one space (the buffer comes out unchanged), and
the whitespace run of "a \n b" does not collapse to exactly one newline: the
buffer keeps its length and holds two newline characters. -/
theorem C3_whitespace_not_collapsed :
    canonBuffer ("a  b".toList) ≠ "a b".toList ∧
    canonBuffer ("a  b".toList) = "a  b".toList ∧
    canonBuffer ("a \n b".toList) = "a \n\nb".toList ∧
    (canonBuffer ("a \n b".toList)).count '\n' = 2 :=
  ⟨by decide, by decide, by decide, by decide⟩

/-- C4: in the text lexer (status ok, on a newline, not escaped, not inside
a list-item context), a soft newline inside continuous text — fewer than two
newlines just collapsed — appends one space to the current token and keeps
lexing text; when two or more newlines were just collapsed the lexer hands
over to the terminator lexer instead.  On concrete inputs, "a\nb" lexes to
the single text token "a b" while "a\n\nb" lexes to two text tokens split by
a Terminator. -/
theorem C4_soft_break_vs_terminator :
    (∀ (f : Nat) (l : LState),
      l.status = .ok → l.char = .chr '\n' → peekBehind l ≠ .chr '\\' → l.ctx ≠ 1 →
      (l.continuousNewline = true → l.skippedNewlines < 2 →
        lexTextBody f l = lexTextLoop f (addToToken ' ' l)) ∧
      (2 ≤ l.skippedNewlines →
        lexTextBody f l = setLexNext (some .fnTerminator) l)) ∧
    collectTokens ("a\nb".toList) =
      [⟨.typeText, ['a', ' ', 'b'], 1, 0, 0⟩, ⟨.typeEOF, [], 2, 3, 0⟩] ∧
    collectTokens ("a\n\nb".toList) =
      [⟨.typeText, ['a'], 1, 0, 0⟩, ⟨.typeTerminator, ['\n'], 2, 2, 0⟩,
       ⟨.typeText, ['b'], 3, 3, 0⟩, ⟨.typeEOF, [], 3, 4, 0⟩] := by
  refine ⟨?_, by decide, by decide⟩
  intro f l hok hchar hpb hctx
  have hne : l.char ≠ .eofR := by rw [hchar]; decide
  have h3 : ¬(l.char = .chr '\\' ∧ peek l ≠ .chr '\\') := by
    rw [hchar]
    exact fun hc => absurd hc.1 (by decide)
  have h5 : ¬(l.char = .chr '\n' ∧ l.ctx = 1) := fun hc => hctx hc.2
  constructor
  · intro hcont hlt
    have h6 : ¬(l.char = .chr '\n' ∧ (l.continuousNewline = false ∨ 2 ≤ l.skippedNewlines)) := by
      intro hc
      rcases hc.2 with hf | h2
      · rw [hcont] at hf
        exact absurd hf (by decide)
      · omega
    rw [lexTextBody, lexTextBodyF, if_pos hok, if_neg hne, if_neg h3, if_neg hpb, if_neg h5,
      if_neg h6, if_pos ⟨hchar, hcont⟩]
  · intro h2
    rw [lexTextBody, lexTextBodyF, if_pos hok, if_neg hne, if_neg h3, if_neg hpb, if_neg h5,
      if_pos ⟨hchar, Or.inr h2⟩]

/-- C4 witness: the two branch conclusions on concrete lexer states. -/
theorem C4_soft_break_vs_terminator_witness :
    lexTextBody 1 c4L1 = lexTextLoop 1 (addToToken ' ' c4L1) ∧
    lexTextBody 1 c4L2 = setLexNext (some .fnTerminator) c4L2 :=
  ⟨(C4_soft_break_vs_terminator.1 1 c4L1 rfl rfl (by decide) (by decide)).1 rfl (by decide),
   (C4_soft_break_vs_terminator.1 1 c4L2 rfl rfl (by decide) (by decide)).2 (by decide)⟩

/-- C5: a bulletpoint's list depth is its recorded indent divided by the
indentation unit 2 rounding down; after one item, a strictly deeper next
bullet opens a nested list via parseList at the deeper depth, and a strictly
shallower next bullet closes the current list (returnNode); the bullets of
"- a\n  - b\n- c" carry indents 0, 2, 0 and the input parses to
List [ListItem, List [ListItem], ListItem] under the root. -/
theorem C5_list_depth_and_nesting :
    (∀ t : Token, getListItemDepth t = t.indent / 2) ∧
    ((collectTokens ("- a\n  - b\n- c".toList)).filter
        (fun t => decide (t.typ = .typeBulletpoint))).map Token.indent = [0, 2, 0] ∧
    (∀ (f d1 : Nat) (p1 : PState),
      p1.lx.tok.typ = .typeBulletpoint → d1 < getListItemDepth p1.lx.tok →
      parseListAfterItem f d1 p1 =
        parseListAfterNested f d1 (parseList f (getListItemDepth p1.lx.tok) p1)) ∧
    (∀ (f d1 : Nat) (p2 : PState),
      p2.lx.tok.typ = .typeBulletpoint → getListItemDepth p2.lx.tok < d1 →
      parseListAfterNested f d1 p2 = returnNode p2) ∧
    ParseTree ("- a\n  - b\n- c".toList) =
      Node.mk nodeRoot []
        [Node.mk nodeList []
          [Node.mk nodeListItem [] [Node.mk nodeText ['a'] []],
           Node.mk nodeList [] [Node.mk nodeListItem [] [Node.mk nodeText ['b'] []]],
           Node.mk nodeListItem [] [Node.mk nodeText ['c'] []]]] := by
  refine ⟨fun t => rfl, by decide, ?_, ?_, by rfl⟩
  · intro f d1 p1 htyp hlt
    rw [parseListAfterItem_eq, if_pos ⟨htyp, hlt⟩]
  · intro f d1 p2 htyp hlt
    rw [parseListAfterNested_eq, if_pos ⟨htyp, hlt⟩]

/-- C5 witness: the nesting and closing steps at a concrete bulletpoint of
indent 4 (depth 2). -/
theorem C5_list_depth_and_nesting_witness :
    parseListAfterItem 0 0 c5P = parseListAfterNested 0 0 (parseList 0 2 c5P) ∧
    parseListAfterNested 0 3 c5P = returnNode c5P :=
  ⟨C5_list_depth_and_nesting.2.2.1 0 0 c5P rfl (by decide),
   C5_list_depth_and_nesting.2.2.2.1 0 3 c5P rfl (by decide)⟩

/-- C6: a heading token whose literal is none of the six recognized values
makes parseHeading add an ERROR node carrying the offending literal in its
diagnostic value and still parse the following rich text as that node's
content; concretely, "..\na" parses to an ERROR node for ".." followed by a
paragraph holding the text "a". -/
theorem C6_invalid_heading_error_node :
    (∀ (f : Nat) (p : PState),
      p.lx.status = .ok →
      p.lx.tok.val ∉ [nodeHeadingOneValue, nodeHeadingTwoValue, nodeHeadingThreeValue,
        nodeHeadingFourValue, nodeHeadingFiveValue, nodeHeadingSixValue] →
      parseHeading (f + 1) p =
        returnNode (parseRichText f (pNextToken
          (addNewNode nodeError (mkErrMsg errInvalidHeading p.lx.tok.val) p)))) ∧
    ParseTree ("..\na".toList) =
      Node.mk nodeRoot []
        [Node.mk nodeError ("Invalid heading value: ..".toList) [],
         Node.mk nodeParagraph [] [Node.mk nodeText ['a'] []]] := by
  refine ⟨?_, by rfl⟩
  intro f p hok hnot
  simp only [List.mem_cons, List.not_mem_nil, or_false, not_or] at hnot
  obtain ⟨n1, n2, n3, n4, n5, n6⟩ := hnot
  rw [parseHeading_succ, if_pos hok, if_neg n1, if_neg n2, if_neg n3, if_neg n4,
    if_neg n5, if_neg n6]

/-- C6 witness: the ERROR step on a concrete state holding the heading
literal "..". -/
theorem C6_invalid_heading_error_node_witness :
    parseHeading 4 c6P =
      returnNode (parseRichText 3 (pNextToken
        (addNewNode nodeError (mkErrMsg errInvalidHeading ['.', '.']) c6P))) :=
  C6_invalid_heading_error_node.1 3 c6P rfl (by decide)

/-- C7: parseRichText stops at once on a Bulletpoint or Terminator token
(the open tag node then closes implicitly with only the content collected so
far, no ERROR node is added), its after-tag continuation stops likewise at
positive tag depth, the list-item loop resets the tag depth to zero for each
new item, and on "- The bold[quick\n- brown fox] jumps" the tag left open in
the first item contains only "quick" while the next item's text stays
outside it. -/
theorem C7_implicit_tag_close_at_item_boundary :
    (∀ (f : Nat) (p : PState),
      p.lx.tok.typ = .typeBulletpoint ∨ p.lx.tok.typ = .typeTerminator →
      parseRichText (f + 1) p = p) ∧
    (∀ (f : Nat) (p1 : PState),
      0 < p1.tagDepth →
      p1.lx.tok.typ = .typeBulletpoint ∨ p1.lx.tok.typ = .typeTerminator →
      parseRichTextAfterTag f p1 = p1) ∧
    (∀ (f d : Nat) (p : PState),
      p.lx.status = .ok → p.lx.tok.typ = .typeBulletpoint →
      parseListLoop (f + 1) d p =
        parseListAfterItem f (getListItemDepth p.lx.tok)
          (setTagDepth0 (parseListItem f (pNextToken p)))) ∧
    (∀ p : PState, p.lx.status = .ok → (setTagDepth0 p).tagDepth = 0) ∧
    ParseTree ("- The bold[quick\n- brown fox] jumps".toList) =
      Node.mk nodeRoot []
        [Node.mk nodeList []
          [Node.mk nodeListItem []
            [Node.mk nodeText "The".toList [],
             Node.mk nodeBoldTag [] [Node.mk nodeText "quick".toList []]],
           Node.mk nodeListItem [] [Node.mk nodeText "brown fox jumps".toList []]]] := by
  refine ⟨?_, ?_, ?_, ?_, by rfl⟩
  · intro f p h
    rw [parseRichText_succ]
    by_cases hok : p.lx.status = .ok
    · rw [if_pos hok, if_pos (h.elim Or.inl (fun h2 => Or.inr (Or.inl h2)))]
    · rw [if_neg hok]
  · intro f p1 hd h
    rw [parseRichTextAfterTag_eq, if_pos ⟨hd, h⟩]
  · intro f d p hok htyp
    rw [parseListLoop_succ, if_pos hok, if_pos htyp]
  · intro p hok
    unfold setTagDepth0
    rw [if_pos hok]

/-- C7 witness: the stops and the tag-depth reset on concrete states. -/
theorem C7_implicit_tag_close_at_item_boundary_witness :
    parseRichText 1 c7T = c7T ∧
    parseRichTextAfterTag 0 c7T = c7T ∧
    parseListLoop 1 0 c7B =
      parseListAfterItem 0 0 (setTagDepth0 (parseListItem 0 (pNextToken c7B))) ∧
    (setTagDepth0 c7T).tagDepth = 0 :=
  ⟨C7_implicit_tag_close_at_item_boundary.1 0 c7T (Or.inr rfl),
   C7_implicit_tag_close_at_item_boundary.2.1 0 c7T (by decide) (Or.inr rfl),
   C7_implicit_tag_close_at_item_boundary.2.2.1 0 0 c7B rfl rfl,
   C7_implicit_tag_close_at_item_boundary.2.2.2.1 c7T rfl⟩

/-- C8: the escaped input "\." lexes to a text token whose value is the
literal ".", with no Heading token anywhere in the stream, and "\\" lexes
to a text token holding one literal backslash; both escape characters are
consumed (each token stream ends right after the two input characters). -/
theorem C8_backslash_escapes :
    collectTokens ("\\.".toList) =
      [⟨.typeText, ['.'], 1, 0, 0⟩, ⟨.typeEOF, [], 1, 2, 0⟩] ∧
    (collectTokens ("\\.".toList)).all
      (fun t => decide (t.typ ≠ .typeHeading)) = true ∧
    collectTokens ("\\\\".toList) =
      [⟨.typeText, ['\\'], 1, 0, 0⟩, ⟨.typeEOF, [], 1, 2, 0⟩] :=
  ⟨by decide, by decide, by decide⟩

/-- C9: once an iterated advance from the initial lexer state has produced
the end-of-input token, every further advance returns the same state — the
same end-of-input token — and the run status is still ok, so the lexer keeps
serving eof to callers that keep calling, without failing. -/
theorem C9_eof_forever (s : List Char) (k m : Nat)
    (h : (lexIter s k).tok.typ = .typeEOF) :
    lexIter s (k + m) = lexIter s k ∧ (lexIter s k).status = .ok := by
  constructor
  · induction m with
    | zero => rfl
    | succ m ih =>
      have hstep : lexIter s (k + (m + 1)) = advance (lexIter s (k + m)) := rfl
      rw [hstep, ih]
      exact advance_eof_fix _ (lexIter_good s k) h
  · exact (lexIter_good s k h).2

/-- C9 witness: on the input "a" the second advance yields eof, and three
more advances change nothing. -/
theorem C9_eof_forever_witness :
    lexIter ['a'] (2 + 3) = lexIter ['a'] 2 ∧ (lexIter ['a'] 2).status = .ok :=
  C9_eof_forever ['a'] 2 3 (by decide)

/-- C10: parseRichText skips an OpeningSquare token (it only arrives here
when not following a Tag token, since parseTag consumes the bracket after a
tag) and a ClosingSquare token at tag depth zero: both just pull the next
token, adding no node; concretely "the [quick] fox" parses to a single
paragraph with the single text "the quick fox", no brackets and no ERROR. -/
theorem C10_stray_brackets_discarded :
    (∀ (f : Nat) (p : PState),
      p.lx.status = .ok → p.lx.tok.typ = .typeOpeningSquare →
      parseRichText (f + 1) p = parseRichText f (pNextToken p)) ∧
    (∀ (f : Nat) (p : PState),
      p.lx.status = .ok → p.lx.tok.typ = .typeClosingSquare → p.tagDepth = 0 →
      parseRichText (f + 1) p = parseRichText f (pNextToken p)) ∧
    ParseTree ("the [quick] fox".toList) =
      Node.mk nodeRoot []
        [Node.mk nodeParagraph [] [Node.mk nodeText "the quick fox".toList []]] := by
  refine ⟨?_, ?_, by rfl⟩
  · intro f p hok htyp
    have h1 : ¬(p.lx.tok.typ = .typeBulletpoint ∨ p.lx.tok.typ = .typeTerminator ∨
        p.lx.tok.typ = .typeEOF) := by rw [htyp]; decide
    have h2 : ¬(p.lx.tok.typ = .typeText) := by rw [htyp]; decide
    have h3 : ¬(p.lx.tok.typ = .typeTag) := by rw [htyp]; decide
    have h4 : ¬(p.lx.tok.typ = .typeClosingSquare) := by rw [htyp]; decide
    rw [parseRichText_succ, if_pos hok, if_neg h1, if_neg h2, if_neg h3, if_neg h4]
  · intro f p hok htyp hd
    have h1 : ¬(p.lx.tok.typ = .typeBulletpoint ∨ p.lx.tok.typ = .typeTerminator ∨
        p.lx.tok.typ = .typeEOF) := by rw [htyp]; decide
    have h2 : ¬(p.lx.tok.typ = .typeText) := by rw [htyp]; decide
    have h3 : ¬(p.lx.tok.typ = .typeTag) := by rw [htyp]; decide
    rw [parseRichText_succ, if_pos hok, if_neg h1, if_neg h2, if_neg h3, if_pos htyp,
      if_neg (by rw [hd]; decide)]

/-- C10 witness: the two skips on concrete states holding a stray opening
and a stray closing bracket. -/
theorem C10_stray_brackets_discarded_witness :
    parseRichText 1 c10A = parseRichText 0 (pNextToken c10A) ∧
    parseRichText 1 c10B = parseRichText 0 (pNextToken c10B) :=
  ⟨C10_stray_brackets_discarded.1 0 c10A rfl rfl,
   C10_stray_brackets_discarded.2.1 0 c10B rfl rfl rfl⟩
